import Mathlib

/-!
Shallow embedding of the WingAI client-side image pipeline:
`src/App.tsx` (filename policy, collection state, point editing, batch
processing), `src/utils.tsx` (CRC-32, ZIP assembly, PNG tEXt injection) and
`src/components/ReviewImages.tsx` (CSV export).

Modelling conventions:
* JS strings are `List Char`; `String.prototype.toLowerCase` is char-wise
  `Char.toLower`, `trim` strips the ASCII whitespace characters.
* JS numbers are `ℚ` where fractional values occur (coordinates, dimensions)
  and `Nat`/`Int` where the source only manipulates integers (counters,
  byte values, offsets).  `ℚ` has no `NaN`; a possibly-non-finite
  `Number(...)` coercion result is modelled as `Option ℚ` (`none` = NaN/∞).
* `Uint8Array` byte buffers are `List Nat` of byte values; `DataView`
  writers truncate to the field width exactly as the JS setters do.
* The mutable `Set<string>` of used filenames is a `List (List Char)` used
  up to membership; registering a name conses its lowercase form.
* Browser resources (object URLs, canvas, fetch, Date) are external
  collaborators; their outcomes enter the model as explicit oracle values.
-/

/-- ASCII whitespace characters stripped by `String.prototype.trim`. -/
def isJsWs (c : Char) : Bool :=
  c = ' ' || c = '\t' || c = '\n' || c = '\r' || c = '\x0b' || c = '\x0c'

/-- `name.trim()`. -/
def jsTrim (s : List Char) : List Char :=
  ((s.dropWhile isJsWs).reverse.dropWhile isJsWs).reverse

/-- `s.toLowerCase()`, character-wise. -/
def lowerL (s : List Char) : List Char := s.map Char.toLower

/-- `s.endsWith(suf)` on char lists. -/
def endsWithL (s suf : List Char) : Bool :=
  decide (suf.length ≤ s.length) && decide (s.drop (s.length - suf.length) = suf)

/-- The reserved double-extension suffix `".dw.png"`. -/
def dwPngChars : List Char := ".dw.png".data

/-- `/\.dw\.png$/i.test(name)`: case-insensitive `".dw.png"` suffix test. -/
def dwPngTest (name : List Char) : Bool := endsWithL (lowerL name) dwPngChars

/-- Index of the last `'.'` in the string (`name.lastIndexOf(".")`),
`none` when there is no dot. -/
def lastDotIdx : List Char → Option Nat
  | [] => none
  | c :: rest =>
    match lastDotIdx rest with
    | some i => some (i + 1)
    | none => if c = '.' then some 0 else none

/-- `name.replace(/\.[^.]+$/, "")`: drop a final dot-extension (a `'.'`
followed by at least one non-dot character reaching the end).  The regex can
only match at the last dot, and only when at least one character follows it. -/
def stripLastExt (s : List Char) : List Char :=
  match lastDotIdx s with
  | some i => if i + 1 < s.length then s.take i else s
  | none => s

/-- `trimmed.replace(/\.dw\.png$/i, "")`: drop a case-insensitive
`".dw.png"` suffix when present. -/
def stripDwPng (s : List Char) : List Char :=
  if dwPngTest s then s.take (s.length - 7) else s

/-- `toPngFilename` from `App.tsx`: trim, fall back to `"image.png"` when
empty, otherwise replace the final extension with `".png"`. -/
def toPngFilename (name : List Char) : List Char :=
  let trimmed := jsTrim name
  if trimmed = [] then "image.png".data
  else stripLastExt trimmed ++ ".png".data

/-- `toDwPngFilename` from `App.tsx`: trim, fall back to `"image.dw.png"`
when empty, keep an existing `".dw.png"` suffix, otherwise replace the final
extension with `".dw.png"`. -/
def toDwPngFilename (name : List Char) : List Char :=
  let trimmed := jsTrim name
  if trimmed = [] then "image.dw.png".data
  else if dwPngTest trimmed then trimmed
  else stripLastExt trimmed ++ dwPngChars

/-- `splitFilename` from `App.tsx`: split a trimmed name into base and
extension, treating `".dw.png"` atomically; a dot at index 0 does not start
an extension (`lastDot > 0`). -/
def splitFilename (name : List Char) : List Char × List Char :=
  let trimmed := jsTrim name
  if endsWithL (lowerL trimmed) dwPngChars then
    (trimmed.take (trimmed.length - 7), trimmed.drop (trimmed.length - 7))
  else
    match lastDotIdx trimmed with
    | some i => if 0 < i then (trimmed.take i, trimmed.drop i) else (trimmed, [])
    | none => (trimmed, [])

/-- The decimal digit character for `d < 10`. -/
def digitChar (d : Nat) : Char := Char.ofNat (48 + d)

/-- Numeric value of a decimal digit character. -/
def digitVal (c : Char) : Nat := c.toNat - 48

/-- Value of a most-significant-first decimal digit string
(`Number(match[2])` on an all-digit string). -/
def natOfChars (ds : List Char) : Nat :=
  ds.foldl (fun acc c => 10 * acc + digitVal c) 0

/-- Decimal rendering of a natural number, fuel-structured so that it
reduces in the kernel; `natToCharsAux n n` renders any positive `n`. -/
def natToCharsAux : Nat → Nat → List Char
  | 0, _ => []
  | fuel + 1, n =>
    if n = 0 then [] else natToCharsAux fuel (n / 10) ++ [digitChar (n % 10)]

/-- JS `` `${n}` `` for a natural number. -/
def natToChars (n : Nat) : List Char :=
  if n = 0 then ['0'] else natToCharsAux n n

/-- Greedy parse of `base.match(/^(.*)\((\d+)\)$/)`: a trailing `"(digits)"`
group (the greedy `.*` makes the matched `'('` the last one, so the digits
are exactly the maximal digit run before the final `')'`). -/
def parseCounterSuffix (base : List Char) : Option (List Char × Nat) :=
  match base.reverse with
  | ')' :: rest =>
    let ds := rest.takeWhile Char.isDigit
    if ds = [] then none
    else
      match rest.drop ds.length with
      | '(' :: rootRev => some (rootRev.reverse, natOfChars ds.reverse)
      | _ => none
  | _ => none

/-- Root and initial counter of the probing loop in
`ensureUniqueFilenameFromSet`: resume at `max 2 (n+1)` when a trailing
`"(n)"` was parsed (the parsed digit string is always a finite number in
this model, as `Number.isFinite` can only fail on JS floats), else start
at 2. -/
def counterStart (base : List Char) : List Char × Nat :=
  match parseCounterSuffix base with
  | some (root, n) => (root, max 2 (n + 1))
  | none => (base, 2)

/-- The probe candidate `` `${root}(${counter})${ext}` ``. -/
def mkCand (root : List Char) (counter : Nat) (ext : List Char) : List Char :=
  root ++ '(' :: (natToChars counter ++ ')' :: ext)

/-- The `while (used.has(candidate.toLowerCase()))` probing loop,
structured on explicit fuel (the loop itself always terminates: the
candidates for distinct counters are distinct and the set is finite, which
`probeFrom_spec` below makes precise; the fuel branch is unreachable for
fuel larger than the number of set elements). -/
def probeFrom (root ext : List Char) (used : List (List Char)) :
    Nat → Nat → List Char
  | counter, 0 => mkCand root counter ext
  | counter, fuel + 1 =>
    if lowerL (mkCand root counter ext) ∈ used then
      probeFrom root ext used (counter + 1) fuel
    else mkCand root counter ext

/-- `ensureUniqueFilenameFromSet` from `App.tsx`.  The returned pair is the
chosen name and the updated used-name set (the source mutates the `Set`
in place; registration is modelled by consing the lowercase name). -/
def ensureUniqueFilenameFromSet (desiredName : List Char)
    (used : List (List Char)) : List Char × List (List Char) :=
  let normalized := lowerL desiredName
  if normalized ∈ used then
    let base := (splitFilename desiredName).1
    let ext := (splitFilename desiredName).2
    let root := (counterStart base).1
    let counter := (counterStart base).2
    let candidate := probeFrom root ext used counter (used.length + 1)
    (candidate, lowerL candidate :: used)
  else
    (desiredName, normalized :: used)

/-! ## The collection data model (`ImageFile` in `App.tsx`) -/

/-- The relevant fields of a browser `File` (payload bytes are external;
`type` is the MIME string). -/
structure JsFile where
  name : List Char
  type : List Char
  size : Nat
  lastModified : Nat
  deriving DecidableEq, Repr

/-- The `status` lifecycle tag. -/
inductive ImageStatus where
  | new | uploading | edit | done | error
  deriving DecidableEq, Repr

/-- One collection record (`ImageFile` in `App.tsx`).  The revocable
`previewUrl` object-URL handle is an external browser resource and is not
modelled; `vector` is the flattened landmarks list, `check` the
needs-review flag, `errorMsg` the `error` diagnostic field. -/
structure ImageFile where
  filename : List Char
  source : JsFile
  status : ImageStatus
  vector : Option (List ℚ) := none
  check : Option Bool := none
  width : Option ℚ := none
  height : Option ℚ := none
  errorMsg : Option (List Char) := none
  deriving DecidableEq, Repr

/-- `` fileKey(file) = `${file.name}|${file.size}|${file.lastModified}` ``:
since the size and last-modified components are decimal number strings that
cannot contain `'|'`, the key determines and is determined by this triple. -/
def fileKey (f : JsFile) : List Char × Nat × Nat := (f.name, f.size, f.lastModified)

/-- A fresh record as built by `addFiles`: filename taken verbatim from the
file, status `"new"`, every optional field absent. -/
def mkNewRecord (f : JsFile) : ImageFile :=
  { filename := f.name, source := f, status := ImageStatus.new }

/-- The intake loop of `addFiles`: walk the picked files, skipping any whose
content-identity key is already present, and extend the key set as new files
are admitted. -/
def addFilesGo : List JsFile → List (List Char × Nat × Nat) → List ImageFile
  | [], _ => []
  | f :: fs, keys =>
    if fileKey f ∈ keys then addFilesGo fs keys
    else mkNewRecord f :: addFilesGo fs (fileKey f :: keys)

/-- `addFiles` from `App.tsx` (the `setImageFiles` updater): append the
admitted new records to the previous collection. -/
def addFiles (files : List JsFile) (prevFiles : List ImageFile) : List ImageFile :=
  prevFiles ++ addFilesGo files (prevFiles.map (fun f => fileKey f.source))

/-- `removeFile` from `App.tsx`: keep exactly the records whose filename
differs (case-sensitively) from `name`.  (The source also revokes the
removed record's preview object URL, an external resource effect.) -/
def removeFile (name : List Char) (files : List ImageFile) : List ImageFile :=
  files.filter (fun f => f.filename ≠ name)

/-- `files.filter((_file, idx) => idx !== currentIndex)`: the index filter
removes exactly the element at `currentIndex`, i.e. `List.eraseIdx`. -/
def usedNamesExcept (files : List ImageFile) (currentIndex : Nat) : List (List Char) :=
  (files.eraseIdx currentIndex).map (fun f => lowerL f.filename)

/-- `ensureUniqueFilename` from `App.tsx`: uniquify against every other
record's lowercase filename (the mutated set is discarded). -/
def ensureUniqueFilename (desiredName : List Char) (currentIndex : Nat)
    (files : List ImageFile) : List Char :=
  (ensureUniqueFilenameFromSet desiredName (usedNamesExcept files currentIndex)).1

/-- `prevFiles.map((x, i) => i === index ? g x : x)`: apply `g` at one
position, keep everything else. -/
def updateAt : Nat → (ImageFile → ImageFile) → List ImageFile → List ImageFile
  | _, _, [] => []
  | 0, g, f :: fs => g f :: fs
  | n + 1, g, f :: fs => f :: updateAt n g fs

/-- The new-name computation inside `renameFile`: preserve the original
semantic extension.  For a `".dw.png"` record the typed name loses any
`".dw.png"` and final extension and regains `".dw.png"`; otherwise the typed
name loses its final extension and regains the original one (when the
original had an extension at `lastIndexOf('.') > 0`). -/
def renameTargetName (originalName trimmed : List Char) : List Char :=
  let hasDwPng := dwPngTest originalName
  let originalExt :=
    match lastDotIdx originalName with
    | some i => if 0 < i then originalName.drop i else []
    | none => []
  if hasDwPng then stripLastExt (stripDwPng trimmed) ++ dwPngChars
  else if originalExt ≠ [] then stripLastExt trimmed ++ originalExt
  else trimmed

/-- `renameFile` from `App.tsx` (the `setImageFiles` updater): no-op on a
missing index or an empty trimmed name; otherwise rebuild the name around
the preserved extension, uniquify it against the other records, and write it
back (a no-op when the unique name is already the record's name). -/
def renameFile (files : List ImageFile) (index : Nat) (newName : List Char) :
    List ImageFile :=
  match files.get? index with
  | none => files
  | some target =>
    let trimmed := jsTrim newName
    if trimmed = [] then files
    else
      let finalName := renameTargetName target.filename trimmed
      let uniqueName := ensureUniqueFilename finalName index files
      if uniqueName = target.filename then files
      else updateAt index (fun f => { f with filename := uniqueName }) files

/-- The collection invariant of claim C1: filenames pairwise distinct after
case-insensitive normalization. -/
def namesUnique (files : List ImageFile) : Prop :=
  (files.map (fun f => lowerL f.filename)).Nodup

instance (files : List ImageFile) : Decidable (namesUnique files) := by
  unfold namesUnique; infer_instance

/-- An intake/rename operation on the collection, as in claim C1. -/
inductive CollectionOp where
  | add (files : List JsFile)
  | rename (index : Nat) (newName : List Char)
  deriving Repr

/-- Apply one operation. -/
def applyOp (files : List ImageFile) : CollectionOp → List ImageFile
  | CollectionOp.add fs => addFiles fs files
  | CollectionOp.rename i n => renameFile files i n

/-- Apply a finite sequence of operations in order. -/
def applyOps (ops : List CollectionOp) (files : List ImageFile) : List ImageFile :=
  ops.foldl applyOp files

/-- Apply a finite sequence of rename operations (index, proposed name) in
order. -/
def applyRenames (ops : List (Nat × List Char)) (files : List ImageFile) :
    List ImageFile :=
  ops.foldl (fun fs op => renameFile fs op.1 op.2) files

/-! ## Point editing (`updatePoint` in `App.tsx`) -/

/-- The per-record body of `updatePoint`'s map.  The guard mirrors JS
truthiness: a missing `vector` and a missing or zero `width`/`height` skip
the record; an out-of-range `base = pointIndex * 2` (negative, or `base+1`
beyond the vector) leaves the record untouched.  Otherwise `x` is clamped to
`[0, width]`, `y` to `[0, height]`, both coordinates of the point are
written, and a set `check` flag is cleared. -/
def updatePointOne (file : ImageFile) (pointIndex : Int) (x y : ℚ) : ImageFile :=
  match file.vector, file.width, file.height with
  | some v, some w, some h =>
    if w = 0 ∨ h = 0 then file
    else
      let base : Int := pointIndex * 2
      if base < 0 ∨ (v.length : Int) ≤ base + 1 then file
      else
        let bn := base.toNat
        let clampedX := min w (max 0 x)
        let clampedY := min h (max 0 y)
        let nextVector := (v.set bn clampedX).set (bn + 1) clampedY
        let nextFile := { file with vector := some nextVector }
        if file.check = some true then { nextFile with check := some false }
        else nextFile
  | _, _, _ => file

/-- `updatePoint` from `App.tsx`: rewrite the record at `imageIndex`
through `updatePointOne`, keeping every other record. -/
def updatePoint (files : List ImageFile) (imageIndex : Nat) (pointIndex : Int)
    (x y : ℚ) : List ImageFile :=
  updateAt imageIndex (fun f => updatePointOne f pointIndex x y) files

/-! ## Batch processing (`processImagesWithBackend` in `App.tsx`)

The browser and network effects are oracles supplied per record: the
JPEG→PNG canvas conversion outcome, the dimension probe outcome, and the
remote `fetch` outcome.  Everything that the source computes from those
outcomes (validation, coercion, merging, error capture, renaming,
uniquification, progress counting) is modelled from the source. -/

/-- `isJpegFile`: MIME `"image/jpeg"` or a case-insensitive `.jpg`/`.jpeg`
extension (`/\.jpe?g$/i`). -/
def isJpegFile (f : JsFile) : Bool :=
  decide (f.type = "image/jpeg".data) ||
    endsWithL (lowerL f.name) ".jpg".data || endsWithL (lowerL f.name) ".jpeg".data

/-- A JSON value in the `check` field of the backend response, as far as the
coercion in `analyzeImageWithBackend` distinguishes it: a boolean, a string,
or anything else (carrying only its truthiness). -/
inductive JsonCheck where
  | bool (b : Bool)
  | str (s : List Char)
  | other (truthy : Bool)
  deriving DecidableEq, Repr

/-- The `check` coercion: booleans pass through, strings compare
case-insensitively against `"true"`, anything else is coerced by
truthiness. -/
def coerceCheck : JsonCheck → Bool
  | JsonCheck.bool b => b
  | JsonCheck.str s => decide (lowerL s = "true".data)
  | JsonCheck.other t => t

/-- Outcome of one record's remote call as seen after JSON parsing.
`throw` covers a rejected `fetch`/resize/decode inside
`analyzeImageWithBackend` (carrying the thrown message), `httpNotOk` a
non-2xx response, and `ok` a parsed body: each `coords` entry is the
`Number(value)` coercion result (`none` = non-finite), `check` the raw
`check` field. -/
inductive FetchOutcome where
  | throw (msg : List Char)
  | httpNotOk (msg : List Char)
  | ok (coords : List (Option ℚ)) (check : JsonCheck)
  deriving DecidableEq, Repr

/-- The validation and coercion in `analyzeImageWithBackend`: a thrown or
non-OK fetch is an error; an OK body must have exactly 38 finite
coordinates, else `"Invalid coords from backend."`; on success the numeric
coordinates and the coerced check flag are returned. -/
def analyzeOutcome : FetchOutcome → Except (List Char) (List ℚ × Bool)
  | FetchOutcome.throw msg => Except.error msg
  | FetchOutcome.httpNotOk msg => Except.error msg
  | FetchOutcome.ok coords check =>
    if coords.length = 38 ∧ ∀ c ∈ coords, c.isSome then
      Except.ok (coords.reduceOption, coerceCheck check)
    else Except.error "Invalid coords from backend.".data

/-- Per-record oracle for the external effects of one pipeline run. -/
structure PerImageEnv where
  /-- JPEG→PNG canvas conversion: `some size` on success (the size of the
  produced PNG file), `none` when the conversion throws. -/
  convert : Option Nat
  /-- `loadImageDimensions` on the preview: `none` when the image fails to
  load (`"Failed to load image"`), else the probed natural dimensions. -/
  probe : Option (ℚ × ℚ)
  /-- The remote analysis call. -/
  fetch : FetchOutcome
  deriving Repr

/-- `normalizeJpegToPng`: non-JPEG files pass through; a successful
conversion renames to the `.png` name and swaps in the converted PNG file;
a failed conversion is non-fatal and returns the record unchanged. -/
def normalizeJpegToPng (convert : Option Nat) (image : ImageFile) : ImageFile :=
  if ¬ isJpegFile image.source then image
  else
    match convert with
    | none => image
    | some newSize =>
      let nextFilename := toPngFilename image.filename
      { image with
        filename := nextFilename,
        source := { name := nextFilename, type := "image/png".data,
                    size := newSize, lastModified := image.source.lastModified } }

/-- The record produced by the `catch` branch: keep the prepared record,
mark `status = "error"` with the message, and record the width/height local
variables as far as they were computed. -/
def mkErrorRecord (prepared : ImageFile) (w h : Option ℚ) (msg : List Char) :
    ImageFile :=
  { prepared with
    status := ImageStatus.error, errorMsg := some msg,
    width := w, height := h }

/-- The tail of one record's pipeline once dimensions `w, h` are known:
run the remote analysis; on success merge the coordinates, the coerced
check flag and the `.dw.png` name, mark `done`; on any failure mark `error`
with the diagnostic. -/
def afterDims (env : PerImageEnv) (prepared : ImageFile) (w h : ℚ) : ImageFile :=
  match analyzeOutcome env.fetch with
  | Except.ok result =>
    { prepared with
      filename := toDwPngFilename prepared.filename,
      vector := some result.1, check := some result.2,
      status := ImageStatus.done, width := some w, height := some h }
  | Except.error msg => mkErrorRecord prepared (some w) (some h) msg

/-- One record's pipeline (the async closure inside
`processImagesWithBackend`): normalize, ensure positive finite dimensions
(probing when the record does not already carry them), then analyze; every
failure is captured at the record boundary. -/
def processOne (env : PerImageEnv) (image : ImageFile) : ImageFile :=
  let prepared := normalizeJpegToPng env.convert image
  match image.width, image.height with
  | some w, some h =>
    if 0 < w ∧ 0 < h then afterDims env prepared w h
    else
      match env.probe with
      | none => mkErrorRecord prepared image.width image.height
          "Failed to load image".data
      | some (pw, ph) =>
        if 0 < pw ∧ 0 < ph then afterDims env prepared pw ph
        else mkErrorRecord prepared (some pw) (some ph)
          "Invalid image dimensions.".data
  | w0, h0 =>
    match env.probe with
    | none => mkErrorRecord prepared w0 h0 "Failed to load image".data
    | some (pw, ph) =>
      if 0 < pw ∧ 0 < ph then afterDims env prepared pw ph
      else mkErrorRecord prepared (some pw) (some ph)
        "Invalid image dimensions.".data

/-- The post-settlement uniquification pass: thread the used-name set
through the processed records in order, renaming a record only when its
name changes. -/
def uniquifyAll : List ImageFile → List (List Char) → List ImageFile
  | [], _ => []
  | f :: fs, used =>
    let r := ensureUniqueFilenameFromSet f.filename used
    (if r.1 = f.filename then f else { f with filename := r.1 }) ::
      uniquifyAll fs r.2

/-- `processImagesWithBackend`: empty input is a no-op returning `[]`;
otherwise every record's pipeline runs (concurrently in the source; the
settled results are in submission order, as `Promise.all` preserves order)
and the results are uniquified against the `existing` collection's
lowercase names. -/
def processImagesWithBackend (envs : List PerImageEnv) (images : List ImageFile)
    (existing : List ImageFile) : List ImageFile :=
  if images = [] then []
  else
    let processed := (images.zip envs).map (fun p => processOne p.2 p.1)
    uniquifyAll processed (existing.map (fun f => lowerL f.filename))

/-- The progress counter after `n` per-record completions: each record's
`finally` block runs `completed := min total (completed + 1)` exactly
once. -/
def completedAfter (total : Nat) : Nat → Nat
  | 0 => 0
  | n + 1 => min total (completedAfter total n + 1)

/-! ## CSV export (`handleDownload` in `ReviewImages.tsx`) -/

/-- JS `Math.round`: round half toward positive infinity. -/
def jsRound (q : ℚ) : Int := ⌊q + 1 / 2⌋

/-- `` `${n}` `` for an integer (`Math.round(x).toString()`). -/
def intToChars (n : Int) : List Char :=
  if n < 0 then '-' :: natToChars n.natAbs else natToChars n.toNat

/-- `csvEscape`: wrap in double quotes, doubling every inner quote
(RFC 4180), applied to every field unconditionally. -/
def csvEscape (value : List Char) : List Char :=
  '"' :: (value.map (fun c => if c = '"' then ['"', '"'] else [c])).flatten ++ ['"']

/-- The CSV header fields: `file`, then `x1..x19`, then `y1..y19`. -/
def csvHeaderFields : List (List Char) :=
  "file".data ::
    ((List.range 19).map (fun idx => 'x' :: natToChars (idx + 1)) ++
      (List.range 19).map (fun idx => 'y' :: natToChars (idx + 1)))

/-- One CSV cell: `typeof v === "number" ? Math.round(v).toString() : ""`;
an index beyond the vector reads `undefined` and renders empty. -/
def csvValueOf (vector : List ℚ) (i : Nat) : List Char :=
  match vector.get? i with
  | some q => intToChars (jsRound q)
  | none => []

/-- One record's CSV data fields: the filename, the 19 x cells
(`vector[2*i]`), then the 19 y cells (`vector[2*i+1]`); a record without a
vector uses `[]` (`img.vector ?? []`). -/
def csvRowFields (img : ImageFile) : List (List Char) :=
  img.filename ::
    ((List.range 19).map (fun i => csvValueOf (img.vector.getD []) (2 * i)) ++
      (List.range 19).map (fun i => csvValueOf (img.vector.getD []) (2 * i + 1)))

/-- `parts.join(sep)` for a single-character separator. -/
def joinWith (sep : Char) : List (List Char) → List Char
  | [] => []
  | [x] => x
  | x :: xs => x ++ sep :: joinWith sep xs

/-- One CSV line: every field escaped, joined by commas. -/
def csvLine (fields : List (List Char)) : List Char :=
  joinWith ',' (fields.map csvEscape)

/-- The CSV text built by `handleDownload`: the header line followed by one
line per record in collection order, joined by `"\n"`. -/
def buildCsv (images : List ImageFile) : List Char :=
  joinWith '\n'
    (csvLine csvHeaderFields :: images.map (fun img => csvLine (csvRowFields img)))

/-- Modelled from the words of claim C7 (not from the source): the header
row it asserts, with the x and y columns of each point adjacent
(`file,x1,y1,x2,y2,...,x19,y19`), quoted like every other field. -/
def claimedCsvHeaderFields : List (List Char) :=
  "file".data ::
    (List.range 19).flatMap
      (fun idx => ['x' :: natToChars (idx + 1), 'y' :: natToChars (idx + 1)])

/-! ## CRC-32, ZIP assembly and PNG tEXt injection (`utils.tsx`)

Byte buffers are `List Nat` of byte values (`Uint8Array` entries are always
`< 256`).  Entry names, keywords and text arrive as their UTF-8 byte
sequences (`TextEncoder` is an external collaborator).  The DOS date/time
derivation reads the environment's local clock through the `Date` API, so
it enters the model as an oracle `dos : Nat → Nat × Nat` mapping a
last-modified timestamp to the packed `(dosTime, dosDate)` pair. -/

/-- One step of the CRC table generation:
`c & 1 ? 0xedb88320 ^ (c >>> 1) : c >>> 1`. -/
def crcStep (c : Nat) : Nat :=
  if c % 2 = 1 then Nat.xor 0xedb88320 (c / 2) else c / 2

/-- `crcTable[n]`: eight halving steps applied to `n`. -/
def crcTableEntry (n : Nat) : Nat := crcStep^[8] n

/-- `crc32` from `utils.tsx`: start from `0 ^ -1` (the 32-bit pattern
`0xffffffff`), fold `crc = (crc >>> 8) ^ table[(crc ^ byte) & 0xff]` over
the data, and finish with `(crc ^ -1) >>> 0`. -/
def crc32 (data : List Nat) : Nat :=
  Nat.xor
    (data.foldl
      (fun crc b => Nat.xor (crc / 256) (crcTableEntry (Nat.xor crc b % 256)))
      0xffffffff)
    0xffffffff

/-- Little-endian byte rendering of `v` over `k` bytes (the `DataView`
`setUint16`/`setUint32` little-endian writers; wider values truncate). -/
def leBytes : Nat → Nat → List Nat
  | 0, _ => []
  | k + 1, v => v % 256 :: leBytes k (v / 256)

/-- `setUint16 (..., true)`. -/
def le16 (v : Nat) : List Nat := leBytes 2 v

/-- `setUint32 (..., true)`. -/
def le32 (v : Nat) : List Nat := leBytes 4 v

/-- A ZIP entry as submitted to `createZipBlob` (`name` is the UTF-8 byte
sequence of the entry name). -/
structure ZipEntry where
  name : List Nat
  data : List Nat
  lastModified : Nat
  deriving DecidableEq, Repr

/-- `entry.name.replace(/\\/g, "/")` on UTF-8 bytes: a backslash is the
single byte `0x5c` and never occurs inside a multi-byte UTF-8 sequence, so
the char-wise replacement is the byte-wise one. -/
def normName (name : List Nat) : List Nat :=
  name.map (fun b => if b = 92 then 47 else b)

/-- The 30-byte local file header plus the entry name, exactly as laid out
by `createZipBlob`: signature, version-needed 20, flags `0x0800`, method 0,
DOS time/date, CRC-32, compressed and uncompressed sizes (both the stored
data length), name length, extra length 0. -/
def localHeader (dos : Nat → Nat × Nat) (e : ZipEntry) : List Nat :=
  le32 0x04034b50 ++ le16 20 ++ le16 0x0800 ++ le16 0 ++
    le16 (dos e.lastModified).1 ++ le16 (dos e.lastModified).2 ++
    le32 (crc32 e.data) ++ le32 e.data.length ++ le32 e.data.length ++
    le16 (normName e.name).length ++ le16 0 ++ normName e.name

/-- Bytes contributed to the file section by one entry. -/
def entryLocalSize (e : ZipEntry) : Nat :=
  30 + (normName e.name).length + e.data.length

/-- The concatenated local headers and data, in submission order. -/
def localSection (dos : Nat → Nat × Nat) : List ZipEntry → List Nat
  | [] => []
  | e :: es => localHeader dos e ++ e.data ++ localSection dos es

/-- The 46-byte central directory header plus the entry name: signature,
version-made-by 20, version-needed 20, flags `0x0800`, method 0, DOS
time/date, CRC-32, sizes, name length, extra/comment lengths 0, disk 0,
attributes 0, and the entry's local header offset. -/
def centralHeader (dos : Nat → Nat × Nat) (e : ZipEntry) (localOffset : Nat) :
    List Nat :=
  le32 0x02014b50 ++ le16 20 ++ le16 20 ++ le16 0x0800 ++ le16 0 ++
    le16 (dos e.lastModified).1 ++ le16 (dos e.lastModified).2 ++
    le32 (crc32 e.data) ++ le32 e.data.length ++ le32 e.data.length ++
    le16 (normName e.name).length ++ le16 0 ++ le16 0 ++ le16 0 ++ le16 0 ++
    le32 0 ++ le32 localOffset ++ normName e.name

/-- The central directory for the given entries, accumulating each entry's
local offset exactly as the source accumulates `offset`. -/
def centralSection (dos : Nat → Nat × Nat) : List ZipEntry → Nat → List Nat
  | [], _ => []
  | e :: es, off =>
    centralHeader dos e off ++ centralSection dos es (off + entryLocalSize e)

/-- The 22-byte end-of-central-directory record: signature, disk numbers 0,
the entry count twice, central directory size and offset, comment length
0. -/
def eocdRecord (count size off : Nat) : List Nat :=
  le32 0x06054b50 ++ le16 0 ++ le16 0 ++ le16 count ++ le16 count ++
    le32 size ++ le32 off ++ le16 0

/-- `createZipBlob` from `utils.tsx`: local sections, then the central
directory (whose offset is the total local size), then the end record. -/
def createZipBlob (dos : Nat → Nat × Nat) (entries : List ZipEntry) : List Nat :=
  let locals := localSection dos entries
  let central := centralSection dos entries 0
  locals ++ central ++ eocdRecord entries.length central.length locals.length

/-! ### A ZIP reader, modelled from the words of claim C6 and the archive
format description in the spec (not from the source): it locates the
end-of-central-directory record at the end of the archive, walks the
central directory, and checks each referenced local file header. -/

/-- Byte access with the out-of-range reads of a typed-array reader. -/
def byteAt (bytes : List Nat) (i : Nat) : Nat := bytes.getD i 0

/-- Little-endian read of `k` bytes at `off`. -/
def readLE (bytes : List Nat) : Nat → Nat → Nat
  | _, 0 => 0
  | off, k + 1 => byteAt bytes off % 256 + 256 * readLE bytes (off + 1) k

/-- One parsed central directory entry. -/
structure CDEntry where
  method : Nat
  crc : Nat
  compSize : Nat
  uncompSize : Nat
  localOffset : Nat
  name : List Nat
  deriving DecidableEq, Repr

/-- Parse `count` consecutive central directory headers starting at `off`,
failing on a bad signature. -/
def parseCD (bytes : List Nat) : Nat → Nat → Option (List CDEntry)
  | _, 0 => some []
  | off, count + 1 =>
    if readLE bytes off 4 = 0x02014b50 then
      let nameLen := readLE bytes (off + 28) 2
      let extraLen := readLE bytes (off + 30) 2
      let commentLen := readLE bytes (off + 32) 2
      let entry : CDEntry :=
        { method := readLE bytes (off + 10) 2, crc := readLE bytes (off + 16) 4,
          compSize := readLE bytes (off + 20) 4,
          uncompSize := readLE bytes (off + 24) 4,
          localOffset := readLE bytes (off + 42) 4,
          name := (bytes.drop (off + 46)).take nameLen }
      match parseCD bytes (off + 46 + nameLen + extraLen + commentLen) count with
      | some rest => some (entry :: rest)
      | none => none
    else none

/-- Parse the end-of-central-directory record, which in a comment-free
archive occupies the final 22 bytes: returns (entry count, central
directory size, central directory offset). -/
def parseEOCD (bytes : List Nat) : Option (Nat × Nat × Nat) :=
  if bytes.length < 22 then none
  else
    let off := bytes.length - 22
    if readLE bytes off 4 = 0x06054b50 ∧ readLE bytes (off + 20) 2 = 0 then
      some (readLE bytes (off + 10) 2, readLE bytes (off + 12) 4,
        readLE bytes (off + 16) 4)
    else none

/-- The local file header at `off` matches the central entry `ce`: local
signature, method 0, and the same CRC-32, sizes and name. -/
def localHeaderMatches (bytes : List Nat) (off : Nat) (ce : CDEntry) : Prop :=
  readLE bytes off 4 = 0x04034b50 ∧ readLE bytes (off + 8) 2 = 0 ∧
    readLE bytes (off + 14) 4 = ce.crc ∧ readLE bytes (off + 18) 4 = ce.compSize ∧
    readLE bytes (off + 22) 4 = ce.uncompSize ∧
    readLE bytes (off + 26) 2 = ce.name.length ∧
    (bytes.drop (off + 30)).take ce.name.length = ce.name

instance (bytes : List Nat) (off : Nat) (ce : CDEntry) :
    Decidable (localHeaderMatches bytes off ce) := by
  unfold localHeaderMatches; infer_instance

/-- The central directory contents `createZipBlob` is expected to produce:
method 0, the data's CRC-32, the data length as both sizes, the accumulated
local offset, and the normalized name. -/
def cdExpected : List ZipEntry → Nat → List CDEntry
  | [], _ => []
  | e :: es, off =>
    { method := 0, crc := crc32 e.data, compSize := e.data.length,
      uncompSize := e.data.length, localOffset := off,
      name := normName e.name } :: cdExpected es (off + entryLocalSize e)

/-- Size bounds under which every ZIP field fits its 16/32-bit slot:
fewer than 2^16 entries, each name shorter than 2^16 bytes, each data
payload and the whole archive smaller than 2^32 bytes. -/
def zipBounded (dos : Nat → Nat × Nat) (entries : List ZipEntry) : Prop :=
  entries.length < 65536 ∧
    (∀ e ∈ entries, (normName e.name).length < 65536 ∧ e.data.length < 4294967296) ∧
    (createZipBlob dos entries).length < 4294967296

/-! ## PNG tEXt chunk injection (`addPngTextChunk` in `utils.tsx`) -/

/-- The 8-byte PNG signature. -/
def pngSignature : List Nat := [137, 80, 78, 71, 13, 10, 26, 10]

/-- `readUint32BE`: big-endian 32-bit read (`Uint8Array` entries are
`< 256`, making the shift-or the positional sum). -/
def readBE32 (bytes : List Nat) (off : Nat) : Nat :=
  byteAt bytes off * 2 ^ 24 + byteAt bytes (off + 1) * 2 ^ 16 +
    byteAt bytes (off + 2) * 2 ^ 8 + byteAt bytes (off + 3)

/-- Big-endian 32-bit byte rendering (`setUint32 (..., false)`). -/
def beBytes32 (v : Nat) : List Nat :=
  [v / 2 ^ 24 % 256, v / 2 ^ 16 % 256, v / 2 ^ 8 % 256, v % 256]

/-- The injected `tEXt` chunk: big-endian data length, the ASCII type tag
`tEXt`, `keyword\0text`, and the big-endian CRC-32 over type + data. -/
def tEXtChunk (keyword text : List Nat) : List Nat :=
  let chunkData := keyword ++ 0 :: text
  beBytes32 chunkData.length ++ [0x74, 0x45, 0x58, 0x74] ++ chunkData ++
    beBytes32 (crc32 ([0x74, 0x45, 0x58, 0x74] ++ chunkData))

/-- The chunk walk of `addPngTextChunk`: starting at offset 8, read each
chunk's length and type; stop with `none` when fewer than 8 header bytes
remain or the chunk overruns the buffer, with the offset when the type is
`IEND`, else step to the end of the chunk's CRC.  Each step advances the
offset by at least 12, so fuel `png.length` dominates the loop. -/
def findIEND (png : List Nat) : Nat → Nat → Option Nat
  | _, 0 => none
  | off, fuel + 1 =>
    if png.length < off + 8 then none
    else
      let len := readBE32 png off
      let crcEnd := off + 8 + len + 4
      if png.length < crcEnd then none
      else if byteAt png (off + 4) = 73 ∧ byteAt png (off + 5) = 69 ∧
          byteAt png (off + 6) = 78 ∧ byteAt png (off + 7) = 68 then some off
      else findIEND png crcEnd fuel

/-- `addPngTextChunk` from `utils.tsx`: a buffer shorter than the
signature, one whose first 8 bytes differ from it, or one without a
locatable `IEND` is returned unchanged; otherwise the `tEXt` chunk is
spliced in immediately before `IEND`. -/
def addPngTextChunk (pngData keyword text : List Nat) : List Nat :=
  if pngData.length < 8 then pngData
  else if pngData.take 8 ≠ pngSignature then pngData
  else
    match findIEND pngData 8 pngData.length with
    | none => pngData
    | some insertOffset =>
      pngData.take insertOffset ++ tEXtChunk keyword text ++
        pngData.drop insertOffset

/-! # Theorems

## Decimal digit strings and probe candidates -/

theorem digitVal_digitChar : ∀ d, d < 10 → digitVal (digitChar d) = d := by decide

theorem natOfChars_append (xs : List Char) (c : Char) :
    natOfChars (xs ++ [c]) = 10 * natOfChars xs + digitVal c := by
  simp [natOfChars, List.foldl_append]

theorem natOfChars_natToCharsAux :
    ∀ fuel n, n ≤ fuel → natOfChars (natToCharsAux fuel n) = n := by
  intro fuel
  induction fuel with
  | zero => intro n hn; interval_cases n; simp [natToCharsAux, natOfChars]
  | succ fuel ih =>
    intro n hn
    by_cases h0 : n = 0
    · simp [natToCharsAux, h0, natOfChars]
    · have hdiv : n / 10 ≤ fuel := by
        have := Nat.div_lt_self (Nat.pos_of_ne_zero h0) (by norm_num : 1 < 10)
        omega
      rw [natToCharsAux, if_neg h0, natOfChars_append, ih _ hdiv,
        digitVal_digitChar _ (Nat.mod_lt _ (by norm_num))]
      omega

theorem natOfChars_natToChars (n : Nat) : natOfChars (natToChars n) = n := by
  by_cases h0 : n = 0
  · simp [natToChars, h0]; decide
  · rw [natToChars, if_neg h0]; exact natOfChars_natToCharsAux n n le_rfl

theorem natToChars_inj {a b : Nat} (h : natToChars a = natToChars b) : a = b := by
  have := congrArg natOfChars h
  simpa [natOfChars_natToChars] using this

theorem natToCharsAux_mem :
    ∀ fuel n c, c ∈ natToCharsAux fuel n → ∃ d, d < 10 ∧ c = digitChar d := by
  intro fuel
  induction fuel with
  | zero => intro n c hc; simp [natToCharsAux] at hc
  | succ fuel ih =>
    intro n c hc
    by_cases h0 : n = 0
    · simp [natToCharsAux, h0] at hc
    · rw [natToCharsAux, if_neg h0] at hc
      rcases List.mem_append.1 hc with h | h
      · exact ih _ _ h
      · exact ⟨n % 10, Nat.mod_lt _ (by norm_num), by simpa using h⟩

theorem digitChar_toLower : ∀ d, d < 10 → Char.toLower (digitChar d) = digitChar d := by
  decide

theorem lowerL_fix (l : List Char) (h : ∀ c ∈ l, Char.toLower c = c) :
    lowerL l = l := by
  unfold lowerL
  rw [List.map_congr_left h]
  simp

theorem lowerL_natToChars (n : Nat) : lowerL (natToChars n) = natToChars n := by
  apply lowerL_fix
  intro c hc
  by_cases h0 : n = 0
  · rw [natToChars, if_pos h0] at hc
    simp at hc
    subst hc; decide
  · rw [natToChars, if_neg h0] at hc
    obtain ⟨d, hd, rfl⟩ := natToCharsAux_mem n n c hc
    exact digitChar_toLower d hd

theorem lowerL_mkCand (root : List Char) (c : Nat) (ext : List Char) :
    lowerL (mkCand root c ext) = mkCand (lowerL root) c (lowerL ext) := by
  simp only [mkCand, lowerL, List.map_append, List.map_cons]
  rw [show ('(' : Char).toLower = '(' from by decide,
    show (')' : Char).toLower = ')' from by decide]
  have h1 := lowerL_natToChars c
  rw [lowerL] at h1
  rw [h1]

theorem mkCand_inj_counter {root ext : List Char} {a b : Nat}
    (h : mkCand root a ext = mkCand root b ext) : a = b := by
  unfold mkCand at h
  have h1 := List.append_cancel_left h
  have h2 : natToChars a ++ ')' :: ext = natToChars b ++ ')' :: ext := by
    injection h1
  have hlen : (natToChars a).length = (natToChars b).length := by
    have := congrArg List.length h2
    simp at this
    omega
  exact natToChars_inj (List.append_inj_left h2 hlen)

theorem lowerL_mkCand_inj_counter {root ext : List Char} {a b : Nat}
    (h : lowerL (mkCand root a ext) = lowerL (mkCand root b ext)) : a = b := by
  rw [lowerL_mkCand, lowerL_mkCand] at h
  exact mkCand_inj_counter h

/-! ## The probing loop reaches the first free candidate -/

open Classical in
theorem probeFrom_spec (root ext : List Char) (used : List (List Char)) :
    ∀ fuel counter,
      (used.toFinset.filter
        (fun u => ∃ k, counter ≤ k ∧ u = lowerL (mkCand root k ext))).card < fuel →
      lowerL (probeFrom root ext used counter fuel) ∉ used ∧
        ∃ k, counter ≤ k ∧ probeFrom root ext used counter fuel = mkCand root k ext ∧
          ∀ j, counter ≤ j → j < k → lowerL (mkCand root j ext) ∈ used := by
  intro fuel
  induction fuel with
  | zero => intro c h; omega
  | succ fuel ih =>
    intro c h
    by_cases hc : lowerL (mkCand root c ext) ∈ used
    · have hstep : probeFrom root ext used c (fuel + 1) =
          probeFrom root ext used (c + 1) fuel := by
        rw [probeFrom, if_pos hc]
      have hsub : used.toFinset.filter
            (fun u => ∃ k, c + 1 ≤ k ∧ u = lowerL (mkCand root k ext)) ⊆
          used.toFinset.filter
            (fun u => ∃ k, c ≤ k ∧ u = lowerL (mkCand root k ext)) := by
        intro u hu
        rcases Finset.mem_filter.1 hu with ⟨hmem, k, hk, hu⟩
        exact Finset.mem_filter.2 ⟨hmem, k, by omega, hu⟩
      have hmemc : lowerL (mkCand root c ext) ∈
          used.toFinset.filter
            (fun u => ∃ k, c ≤ k ∧ u = lowerL (mkCand root k ext)) :=
        Finset.mem_filter.2 ⟨List.mem_toFinset.2 hc, c, le_rfl, rfl⟩
      have hnot : lowerL (mkCand root c ext) ∉
          used.toFinset.filter
            (fun u => ∃ k, c + 1 ≤ k ∧ u = lowerL (mkCand root k ext)) := by
        intro hm
        rcases Finset.mem_filter.1 hm with ⟨-, k, hk, he⟩
        have := lowerL_mkCand_inj_counter he
        omega
      have hss := Finset.ssubset_def.2 ⟨hsub, fun hback => hnot (hback hmemc)⟩
      have hlt := Finset.card_lt_card hss
      have h2 : (used.toFinset.filter
          (fun u => ∃ k, c + 1 ≤ k ∧ u = lowerL (mkCand root k ext))).card < fuel := by
        omega
      obtain ⟨hfree, k, hk, heq, hall⟩ := ih (c + 1) h2
      rw [hstep]
      refine ⟨hfree, k, by omega, heq, ?_⟩
      intro j hj1 hj2
      rcases Nat.eq_or_lt_of_le hj1 with rfl | hj
      · exact hc
      · exact hall j hj hj2
    · rw [probeFrom, if_neg hc]
      exact ⟨hc, c, le_rfl, rfl, fun j hj1 hj2 => absurd rfl (by omega : ¬ j = j)⟩

open Classical in
theorem probeFrom_sound (root ext : List Char) (used : List (List Char))
    (counter fuel : Nat) (hfuel : used.length < fuel) :
    lowerL (probeFrom root ext used counter fuel) ∉ used ∧
      ∃ k, counter ≤ k ∧ probeFrom root ext used counter fuel = mkCand root k ext ∧
        ∀ j, counter ≤ j → j < k → lowerL (mkCand root j ext) ∈ used := by
  apply probeFrom_spec
  calc (used.toFinset.filter
        (fun u => ∃ k, counter ≤ k ∧ u = lowerL (mkCand root k ext))).card
      ≤ used.toFinset.card := Finset.card_filter_le _ _
    _ ≤ used.length := used.toFinset_card_le
    _ < fuel := hfuel

theorem firstFree_unique (root ext : List Char) (used : List (List Char))
    (c : Nat) {k1 k2 : Nat}
    (h1 : c ≤ k1) (f1 : lowerL (mkCand root k1 ext) ∉ used)
    (a1 : ∀ j, c ≤ j → j < k1 → lowerL (mkCand root j ext) ∈ used)
    (h2 : c ≤ k2) (f2 : lowerL (mkCand root k2 ext) ∉ used)
    (a2 : ∀ j, c ≤ j → j < k2 → lowerL (mkCand root j ext) ∈ used) :
    k1 = k2 := by
  rcases lt_trichotomy k1 k2 with h | h | h
  · exact absurd (a2 k1 h1 h) f1
  · exact h
  · exact absurd (a1 k2 h2 h) f2

/-- C2, part shared with C1: whichever branch runs, the name returned by
`ensureUniqueFilenameFromSet` is case-insensitively absent from the set it
was called with, and the call registers exactly that lowercase name. -/
theorem ensureUniqueFromSet_fresh (d : List Char) (used : List (List Char)) :
    lowerL (ensureUniqueFilenameFromSet d used).1 ∉ used ∧
      (ensureUniqueFilenameFromSet d used).2 =
        lowerL (ensureUniqueFilenameFromSet d used).1 :: used := by
  unfold ensureUniqueFilenameFromSet
  by_cases hmem : lowerL d ∈ used
  · simp only [if_pos hmem]
    exact ⟨(probeFrom_sound _ _ _ _ _ (Nat.lt_succ_self _)).1, trivial⟩
  · simp only [if_neg hmem]
    exact ⟨hmem, trivial⟩

/-- C2: `ensureUniqueFilenameFromSet` returns the candidate itself when its
lowercase form is absent from the set (registering it); otherwise it splits
the candidate into base and extension, takes the probe root and start
counter from the trailing `"(n)"` parse (`max 2 (n+1)` when present, 2
otherwise), and returns the first `root(counter)ext` whose lowercase form
is free of the set, every earlier probed counter being taken; in every case
the returned name's lowercase form was not in the set before the call and
is registered in the set returned by the call. -/
theorem ensureUniqueFilenameFromSet_spec (d : List Char)
    (used : List (List Char)) :
    (lowerL d ∉ used → ensureUniqueFilenameFromSet d used = (d, lowerL d :: used)) ∧
      (lowerL d ∈ used →
        ∃ k, (counterStart (splitFilename d).1).2 ≤ k ∧
          (ensureUniqueFilenameFromSet d used).1 =
            mkCand (counterStart (splitFilename d).1).1 k (splitFilename d).2 ∧
          ∀ j, (counterStart (splitFilename d).1).2 ≤ j → j < k →
            lowerL (mkCand (counterStart (splitFilename d).1).1 j
              (splitFilename d).2) ∈ used) ∧
      lowerL (ensureUniqueFilenameFromSet d used).1 ∉ used ∧
      (ensureUniqueFilenameFromSet d used).2 =
        lowerL (ensureUniqueFilenameFromSet d used).1 :: used := by
  refine ⟨?_, ?_, (ensureUniqueFromSet_fresh d used).1,
    (ensureUniqueFromSet_fresh d used).2⟩
  · intro hmem
    unfold ensureUniqueFilenameFromSet
    simp only [if_neg hmem]
  · intro hmem
    obtain ⟨-, k, hk, heq, hall⟩ :=
      probeFrom_sound (counterStart (splitFilename d).1).1 (splitFilename d).2
        used (counterStart (splitFilename d).1).2 (used.length + 1)
        (Nat.lt_succ_self _)
    refine ⟨k, hk, ?_, hall⟩
    unfold ensureUniqueFilenameFromSet
    simp only [if_pos hmem]
    exact heq

/-- Witness for C2 at a colliding concrete input: renaming `"a.png"`
against a set already holding `"a.png"` yields a name that was not in the
set. -/
theorem ensureUniqueFilenameFromSet_spec_witness :
    lowerL (ensureUniqueFilenameFromSet "a.png".data ["a.png".data]).1 ∉
      [("a.png".data : List Char)] :=
  (ensureUniqueFilenameFromSet_spec "a.png".data ["a.png".data]).2.2.1

/-- C9: the probing loop of `ensureUniqueFilenameFromSet` terminates — its
result is already stable at fuel `used.length + 1`, i.e. the
`while (used.has(...))` loop exits within finitely many steps for every
finite used set — and the function is deterministic: two set
representations with the same membership yield the same name. -/
theorem ensureUnique_terminates_deterministic (d : List Char)
    (used used2 : List (List Char)) (hmem : ∀ x, x ∈ used ↔ x ∈ used2) :
    (∀ root ext counter fuel, used.length < fuel →
      probeFrom root ext used counter fuel =
        probeFrom root ext used counter (used.length + 1)) ∧
      (ensureUniqueFilenameFromSet d used).1 =
        (ensureUniqueFilenameFromSet d used2).1 := by
  constructor
  · intro root ext counter fuel hfuel
    obtain ⟨hf1, k1, hk1, he1, ha1⟩ :=
      probeFrom_sound root ext used counter fuel hfuel
    obtain ⟨hf2, k2, hk2, he2, ha2⟩ :=
      probeFrom_sound root ext used counter (used.length + 1) (Nat.lt_succ_self _)
    rw [he1] at hf1
    rw [he2] at hf2
    rw [he1, he2, firstFree_unique root ext used counter hk1 hf1 ha1 hk2 hf2 ha2]
  · unfold ensureUniqueFilenameFromSet
    by_cases hd : lowerL d ∈ used
    · have hd2 : lowerL d ∈ used2 := (hmem _).1 hd
      simp only [if_pos hd, if_pos hd2]
      obtain ⟨hf1, k1, hk1, he1, ha1⟩ :=
        probeFrom_sound (counterStart (splitFilename d).1).1 (splitFilename d).2
          used (counterStart (splitFilename d).1).2 (used.length + 1)
          (Nat.lt_succ_self _)
      obtain ⟨hf2, k2, hk2, he2, ha2⟩ :=
        probeFrom_sound (counterStart (splitFilename d).1).1 (splitFilename d).2
          used2 (counterStart (splitFilename d).1).2 (used2.length + 1)
          (Nat.lt_succ_self _)
      rw [he1] at hf1
      rw [he2] at hf2
      have hf2u : lowerL (mkCand (counterStart (splitFilename d).1).1 k2
          (splitFilename d).2) ∉ used := fun hin => hf2 ((hmem _).1 hin)
      have ha2u : ∀ j, (counterStart (splitFilename d).1).2 ≤ j → j < k2 →
          lowerL (mkCand (counterStart (splitFilename d).1).1 j
            (splitFilename d).2) ∈ used :=
        fun j h1 h2 => (hmem _).2 (ha2 j h1 h2)
      rw [he1, he2,
        firstFree_unique _ _ used _ hk1 hf1 ha1 hk2 hf2u ha2u]
    · have hd2 : lowerL d ∉ used2 := fun hin => hd ((hmem _).2 hin)
      simp only [if_neg hd, if_neg hd2]

/-- Witness for C9 at a concrete set. -/
theorem ensureUnique_terminates_deterministic_witness :
    (∀ root ext counter fuel, (["b.png".data] : List (List Char)).length < fuel →
      probeFrom root ext ["b.png".data] counter fuel =
        probeFrom root ext ["b.png".data] counter
          ((["b.png".data] : List (List Char)).length + 1)) ∧
      (ensureUniqueFilenameFromSet "a.png".data ["b.png".data]).1 =
        (ensureUniqueFilenameFromSet "a.png".data ["b.png".data]).1 :=
  ensureUnique_terminates_deterministic "a.png".data ["b.png".data]
    ["b.png".data] (fun _ => Iff.rfl)

/-! ## Collection filename uniqueness (C1, C10) -/

theorem map_eraseIdx (f : ImageFile → List Char) :
    ∀ (l : List ImageFile) (i : Nat),
      (l.eraseIdx i).map f = (l.map f).eraseIdx i := by
  intro l
  induction l with
  | nil => intro i; simp [List.eraseIdx]
  | cons a rest ih =>
    intro i
    cases i with
    | zero => simp [List.eraseIdx]
    | succ n => simp [List.eraseIdx, ih n]

theorem nodup_set (v : List Char) :
    ∀ (names : List (List Char)) (i : Nat), names.Nodup →
      v ∉ names.eraseIdx i → (names.set i v).Nodup := by
  intro names
  induction names with
  | nil => intro i _ _; simp
  | cons a rest ih =>
    intro i hn hv
    cases i with
    | zero =>
      rw [List.eraseIdx] at hv
      rw [List.set]
      exact List.nodup_cons.2 ⟨hv, (List.nodup_cons.1 hn).2⟩
    | succ n =>
      rw [List.eraseIdx] at hv
      rw [List.set]
      have hva : v ≠ a := fun h => hv (List.mem_cons.2 (Or.inl h))
      have hvr : v ∉ rest.eraseIdx n := fun h => hv (List.mem_cons.2 (Or.inr h))
      rcases List.nodup_cons.1 hn with ⟨ha, hr⟩
      refine List.nodup_cons.2 ⟨?_, ih n hr hvr⟩
      intro hmem
      rcases List.mem_or_eq_of_mem_set hmem with h | h
      · exact ha h
      · exact hva h.symm

theorem updateAt_map_set (g : ImageFile → ImageFile) (f : ImageFile → List Char) :
    ∀ (l : List ImageFile) (i : Nat) (x : ImageFile), l.get? i = some x →
      (updateAt i g l).map f = (l.map f).set i (f (g x)) := by
  intro l
  induction l with
  | nil => intro i x hx; simp at hx
  | cons a rest ih =>
    intro i x hx
    cases i with
    | zero =>
      simp at hx
      subst hx
      simp [updateAt]
    | succ n =>
      have hx2 : rest.get? n = some x := hx
      simp [updateAt, ih n x hx2]

theorem renameFile_preserves_namesUnique (files : List ImageFile) (i : Nat)
    (n : List Char) (h : namesUnique files) : namesUnique (renameFile files i n) := by
  unfold renameFile
  cases hget : files.get? i with
  | none => exact h
  | some target =>
    by_cases htrim : jsTrim n = []
    · simp only [if_pos htrim]; exact h
    · simp only [if_neg htrim]
      by_cases hsame :
          ensureUniqueFilename (renameTargetName target.filename (jsTrim n)) i files =
            target.filename
      · simp only [if_pos hsame]; exact h
      · simp only [if_neg hsame]
        unfold namesUnique
        rw [updateAt_map_set _ _ files i target hget]
        apply nodup_set _ _ _ h
        rw [← map_eraseIdx]
        exact (ensureUniqueFromSet_fresh
          (renameTargetName target.filename (jsTrim n))
          (usedNamesExcept files i)).1

/-- C1, amended: `renameFile` preserves case-insensitive filename
uniqueness: starting from any collection with pairwise case-insensitively
distinct filenames, any finite sequence of rename operations leaves the
filenames pairwise distinct case-insensitively.  (File intake does not
enforce the invariant; see the counterexample.) -/
theorem applyRenames_preserves_namesUnique (files : List ImageFile)
    (h : namesUnique files) (ops : List (Nat × List Char)) :
    namesUnique (applyRenames ops files) := by
  induction ops generalizing files with
  | nil => exact h
  | cons op rest ih =>
    exact ih (renameFile files op.1 op.2) (renameFile_preserves_namesUnique _ _ _ h)

/-- Witness for the amended C1. -/
theorem applyRenames_preserves_namesUnique_witness :
    namesUnique (applyRenames [(0, "x.png".data)]
      [mkNewRecord ⟨"a.png".data, "image/png".data, 1, 0⟩]) :=
  applyRenames_preserves_namesUnique _ (by decide) _

/-- Counterexample to C1 as stated: one `addFiles` intake of two distinct
files (different sizes) that share the name `"a.png"` admits both records
with the same filename, so the collection's filenames are not pairwise
distinct case-insensitively. -/
theorem addFiles_breaks_namesUnique :
    ¬ namesUnique (applyOps
      [CollectionOp.add
        [⟨"a.png".data, "image/png".data, 1, 0⟩,
         ⟨"a.png".data, "image/png".data, 2, 0⟩]] []) := by
  decide

/-- C10: `removeFile n` removes exactly the records whose filename equals
`n` case-sensitively: afterwards no record carries filename `n`, the
surviving records are a sublist of the original collection (same relative
order, unchanged records), and every record with a different filename
survives. -/
theorem removeFile_spec (name : List Char) (files : List ImageFile) :
    (∀ f ∈ removeFile name files, f.filename ≠ name) ∧
      (removeFile name files).Sublist files ∧
      (∀ f ∈ files, f.filename ≠ name → f ∈ removeFile name files) := by
  refine ⟨?_, List.filter_sublist files, ?_⟩
  · intro f hf
    have := (List.mem_filter.1 hf).2
    simpa using this
  · intro f hf hne
    exact List.mem_filter.2 ⟨hf, by simpa using hne⟩

/-- Witness for C10: after removing `"a.png"` from a two-record collection
the `"b.png"` record survives with its name intact. -/
theorem removeFile_spec_witness :
    mkNewRecord ⟨"b.png".data, "image/png".data, 2, 0⟩ ∈
      removeFile "a.png".data
        [mkNewRecord ⟨"a.png".data, "image/png".data, 1, 0⟩,
         mkNewRecord ⟨"b.png".data, "image/png".data, 2, 0⟩] :=
  (removeFile_spec "a.png".data _).2.2 _ (by decide) (by decide)

/-! ## Point editing: clamping and review-flag clearing (C3, C4) -/

theorem updateAt_get? (g : ImageFile → ImageFile) :
    ∀ (l : List ImageFile) (i : Nat) (x : ImageFile), l.get? i = some x →
      (updateAt i g l).get? i = some (g x) := by
  intro l
  induction l with
  | nil => intro i x hx; simp at hx
  | cons a rest ih =>
    intro i x hx
    cases i with
    | zero =>
      simp at hx
      subst hx
      simp [updateAt]
    | succ n =>
      have hx2 : rest.get? n = some x := hx
      simpa [updateAt] using ih n x hx2

theorem updatePointOne_eval (f : ImageFile) (p : Int) (x y : ℚ)
    (v : List ℚ) (w h : ℚ)
    (hv : f.vector = some v) (hlen : v.length = 38)
    (hw : f.width = some w) (hh : f.height = some h)
    (hw0 : 0 < w) (hh0 : 0 < h) (hp0 : 0 ≤ p) (hp : p < 19) :
    updatePointOne f p x y =
      (let nextFile := { f with
        vector := some ((v.set (p.toNat * 2) (min w (max 0 x))).set
          (p.toNat * 2 + 1) (min h (max 0 y))) }
      if f.check = some true then { nextFile with check := some false }
      else nextFile) := by
  unfold updatePointOne
  rw [hv, hw, hh]
  have hg1 : ¬ (w = 0 ∨ h = 0) := by
    push_neg
    exact ⟨ne_of_gt hw0, ne_of_gt hh0⟩
  have hg2 : ¬ (p * 2 < 0 ∨ (v.length : Int) ≤ p * 2 + 1) := by
    push_neg
    constructor
    · omega
    · rw [hlen]; omega
  simp only [if_neg hg1, if_neg hg2]
  have hbn : (p * 2).toNat = p.toNat * 2 := by omega
  rw [hbn]

/-- C3: for a record with a populated 38-slot landmarks vector and known
positive width and height, `updatePoint` at a point index `0 ≤ p < 19` with
arbitrary rational inputs stores coordinates clamped into
`[0, width] × [0, height]` of that record's own (unchanged) dimensions. -/
theorem updatePoint_clamps (files : List ImageFile) (i : Nat) (p : Int)
    (x y : ℚ) (f : ImageFile) (v : List ℚ) (w h : ℚ)
    (hf : files.get? i = some f) (hv : f.vector = some v) (hlen : v.length = 38)
    (hw : f.width = some w) (hh : f.height = some h)
    (hw0 : 0 < w) (hh0 : 0 < h) (hp0 : 0 ≤ p) (hp : p < 19) :
    ∃ f2 v2 x2 y2,
      (updatePoint files i p x y).get? i = some f2 ∧ f2.vector = some v2 ∧
        f2.width = some w ∧ f2.height = some h ∧
        v2.get? (p.toNat * 2) = some x2 ∧ v2.get? (p.toNat * 2 + 1) = some y2 ∧
        0 ≤ x2 ∧ x2 ≤ w ∧ 0 ≤ y2 ∧ y2 ≤ h := by
  have hres := updateAt_get? (fun f => updatePointOne f p x y) files i f hf
  simp only at hres
  rw [updatePointOne_eval f p x y v w h hv hlen hw hh hw0 hh0 hp0 hp] at hres
  have hlt1 : p.toNat * 2 < v.length := by omega
  have hlt2 : p.toNat * 2 + 1 < v.length := by omega
  have hx2 : ((v.set (p.toNat * 2) (min w (max 0 x))).set
      (p.toNat * 2 + 1) (min h (max 0 y))).get? (p.toNat * 2) =
      some (min w (max 0 x)) := by
    rw [List.get?_eq_getElem?, List.getElem?_set_ne (by omega)]
    rw [← List.get?_eq_getElem?, List.get?_set_of_lt _ _ hlt1, if_pos rfl]
  have hy2 : ((v.set (p.toNat * 2) (min w (max 0 x))).set
      (p.toNat * 2 + 1) (min h (max 0 y))).get? (p.toNat * 2 + 1) =
      some (min h (max 0 y)) := by
    rw [List.get?_eq_getElem?]
    rw [List.getElem?_set_self']
    rw [← List.get?_eq_getElem?, List.get?_eq_getElem?,
      List.getElem?_set_ne (by omega), ← List.get?_eq_getElem?]
    rw [List.get?_eq_getElem?, List.getElem?_eq_getElem hlt2]
    rfl
  have hbounds : 0 ≤ min w (max 0 x) ∧ min w (max 0 x) ≤ w ∧
      0 ≤ min h (max 0 y) ∧ min h (max 0 y) ≤ h :=
    ⟨le_min (le_of_lt hw0) (le_max_left 0 x), min_le_left w _,
      le_min (le_of_lt hh0) (le_max_left 0 y), min_le_left h _⟩
  by_cases hc : f.check = some true
  · refine ⟨{ f with
        vector := some ((v.set (p.toNat * 2) (min w (max 0 x))).set
          (p.toNat * 2 + 1) (min h (max 0 y))),
        check := some false }, _,
      min w (max 0 x), min h (max 0 y), ?_, rfl, hw, hh, hx2, hy2,
      hbounds.1, hbounds.2.1, hbounds.2.2.1, hbounds.2.2.2⟩
    rw [updatePoint, hres]
    simp [hc]
  · refine ⟨{ f with
        vector := some ((v.set (p.toNat * 2) (min w (max 0 x))).set
          (p.toNat * 2 + 1) (min h (max 0 y))) }, _,
      min w (max 0 x), min h (max 0 y), ?_, rfl, hw, hh, hx2, hy2,
      hbounds.1, hbounds.2.1, hbounds.2.2.1, hbounds.2.2.2⟩
    rw [updatePoint, hres]
    simp [hc]

/-- Witness for C3: a point dragged to `(-500, 1000)` on a 100×50 record is
stored inside `[0, 100] × [0, 50]`. -/
theorem updatePoint_clamps_witness :
    ∃ f2 v2 x2 y2,
      (updatePoint [{ mkNewRecord ⟨"a.png".data, "image/png".data, 1, 0⟩ with
          vector := some (List.replicate 38 (0 : ℚ)),
          width := some 100, height := some 50 }] 0 3 (-500) 1000).get? 0 =
        some f2 ∧
        f2.vector = some v2 ∧ f2.width = some 100 ∧ f2.height = some 50 ∧
        v2.get? ((3 : Int).toNat * 2) = some x2 ∧
        v2.get? ((3 : Int).toNat * 2 + 1) = some y2 ∧
        0 ≤ x2 ∧ x2 ≤ 100 ∧ 0 ≤ y2 ∧ y2 ≤ 50 :=
  updatePoint_clamps _ 0 3 (-500) 1000 _ (List.replicate 38 0) 100 50
    rfl rfl (by simp) rfl rfl (by norm_num) (by norm_num) (by decide) (by decide)

/-- C4: under `updatePoint`'s preconditions (populated landmarks vector,
known positive dimensions, in-range point index), the edit sets the
record's `check` (needs-review) flag to `false` when it was `true` and
leaves it `false` when it was already `false`. -/
theorem updatePoint_clears_check (files : List ImageFile) (i : Nat) (p : Int)
    (x y : ℚ) (f : ImageFile) (v : List ℚ) (w h : ℚ)
    (hf : files.get? i = some f) (hv : f.vector = some v) (hlen : v.length = 38)
    (hw : f.width = some w) (hh : f.height = some h)
    (hw0 : 0 < w) (hh0 : 0 < h) (hp0 : 0 ≤ p) (hp : p < 19) :
    ∃ f2, (updatePoint files i p x y).get? i = some f2 ∧
      (f.check = some true → f2.check = some false) ∧
      (f.check = some false → f2.check = some false) := by
  have hres := updateAt_get? (fun f => updatePointOne f p x y) files i f hf
  simp only at hres
  rw [updatePointOne_eval f p x y v w h hv hlen hw hh hw0 hh0 hp0 hp] at hres
  by_cases hc : f.check = some true
  · refine ⟨{ f with
        vector := some ((v.set (p.toNat * 2) (min w (max 0 x))).set
          (p.toNat * 2 + 1) (min h (max 0 y))),
        check := some false }, ?_, fun _ => rfl, fun _ => rfl⟩
    rw [updatePoint, hres]
    simp [hc]
  · refine ⟨{ f with
        vector := some ((v.set (p.toNat * 2) (min w (max 0 x))).set
          (p.toNat * 2 + 1) (min h (max 0 y))) }, ?_,
      fun htrue => absurd htrue hc, fun hfalse => hfalse⟩
    rw [updatePoint, hres]
    simp [hc]

/-- Witness for C4: the example record starts with `check = some true` and
ends with `check = some false`. -/
theorem updatePoint_clears_check_witness :
    ∃ f2, (updatePoint [{ mkNewRecord ⟨"a.png".data, "image/png".data, 1, 0⟩ with
        vector := some (List.replicate 38 (0 : ℚ)),
        width := some 100, height := some 50, check := some true }]
        0 0 7 7).get? 0 = some f2 ∧
      (({ mkNewRecord ⟨"a.png".data, "image/png".data, 1, 0⟩ with
        vector := some (List.replicate 38 (0 : ℚ)),
        width := some 100, height := some 50,
        check := some true } : ImageFile).check = some true →
          f2.check = some false) ∧
      (({ mkNewRecord ⟨"a.png".data, "image/png".data, 1, 0⟩ with
        vector := some (List.replicate 38 (0 : ℚ)),
        width := some 100, height := some 50,
        check := some true } : ImageFile).check = some false →
          f2.check = some false) :=
  updatePoint_clears_check _ 0 0 7 7 _ (List.replicate 38 0) 100 50
    rfl rfl (by simp) rfl rfl (by norm_num) (by norm_num) (by decide) (by decide)

/-! ## Batch processing: per-record isolation and progress (C5) -/

theorem analyzeOutcome_ok_length (fo : FetchOutcome) (coords : List ℚ) (chk : Bool)
    (h : analyzeOutcome fo = Except.ok (coords, chk)) : coords.length = 38 := by
  cases fo with
  | throw msg => simp [analyzeOutcome] at h
  | httpNotOk msg => simp [analyzeOutcome] at h
  | ok cs j =>
    rw [analyzeOutcome] at h
    split at h
    · rename_i hcond
      injection h with h2
      have hco : coords = cs.reduceOption := (congrArg Prod.fst h2).symm
      rw [hco, List.reduceOption_length_eq_iff.2 (by
        intro c hc
        exact hcond.2 c hc), hcond.1]
    · exact absurd h (by simp)

theorem processOne_done (env : PerImageEnv) (image : ImageFile) (w h : ℚ)
    (coords : List ℚ) (chk : Bool)
    (hw : image.width = some w) (hh : image.height = some h)
    (h0 : 0 < w) (h1 : 0 < h)
    (ha : analyzeOutcome env.fetch = Except.ok (coords, chk)) :
    (processOne env image).status = ImageStatus.done ∧
      (processOne env image).vector = some coords := by
  unfold processOne
  simp only [hw, hh]
  rw [if_pos ⟨h0, h1⟩]
  unfold afterDims
  rw [ha]
  exact ⟨rfl, rfl⟩

theorem processOne_error (env : PerImageEnv) (image : ImageFile) (w h : ℚ)
    (msg : List Char)
    (hw : image.width = some w) (hh : image.height = some h)
    (h0 : 0 < w) (h1 : 0 < h)
    (ha : analyzeOutcome env.fetch = Except.error msg) :
    (processOne env image).status = ImageStatus.error ∧
      (processOne env image).errorMsg = some msg := by
  unfold processOne
  simp only [hw, hh]
  rw [if_pos ⟨h0, h1⟩]
  unfold afterDims
  rw [ha]
  exact ⟨rfl, rfl⟩

theorem uniquifyAll_fields :
    ∀ (fs : List ImageFile) (used : List (List Char)) (i : Nat) (f : ImageFile),
      fs.get? i = some f →
      ∃ g, (uniquifyAll fs used).get? i = some g ∧
        g.status = f.status ∧ g.vector = f.vector ∧ g.errorMsg = f.errorMsg := by
  intro fs
  induction fs with
  | nil => intro used i f hf; simp at hf
  | cons a rest ih =>
    intro used i f hf
    cases i with
    | zero =>
      have hf2 : a = f := by simpa using hf
      by_cases hsame :
          (ensureUniqueFilenameFromSet a.filename used).1 = a.filename
      · exact ⟨a, by simp [uniquifyAll, hsame], by rw [hf2], by rw [hf2],
          by rw [hf2]⟩
      · exact ⟨{ a with
            filename := (ensureUniqueFilenameFromSet a.filename used).1 },
          by simp [uniquifyAll, hsame], by simp [hf2], by simp [hf2],
          by simp [hf2]⟩
    | succ n =>
      have hf2 : rest.get? n = some f := hf
      obtain ⟨g, hg, hs, hv, he⟩ :=
        ih (ensureUniqueFilenameFromSet a.filename used).2 n f hf2
      exact ⟨g, by simpa [uniquifyAll] using hg, hs, hv, he⟩

theorem completedAfter_eq (total : Nat) : ∀ n, completedAfter total n = min total n := by
  intro n
  induction n with
  | zero => simp [completedAfter]
  | succ n ih => rw [completedAfter, ih]; omega

/-- C5: in a batch of three records that all carry known positive
dimensions, where the remote analysis of record #2 fails and records #1 and
#3 return 38 finite coordinates, `processImagesWithBackend` settles the
records to statuses `done, error, done` in order, records #1 and #3 carry a
landmarks vector of length exactly 38, record #2 carries the failure
diagnostic, and the progress counter — incremented exactly once per record
— reaches 3. -/
theorem processBatch_isolates_failure
    (e1 e2 e3 : PerImageEnv) (i1 i2 i3 : ImageFile)
    (existing : List ImageFile)
    (w1 h1 w2 h2 w3 h3 : ℚ)
    (hw1 : i1.width = some w1) (hh1 : i1.height = some h1)
    (hw2 : i2.width = some w2) (hh2 : i2.height = some h2)
    (hw3 : i3.width = some w3) (hh3 : i3.height = some h3)
    (hp1 : 0 < w1 ∧ 0 < h1) (hp2 : 0 < w2 ∧ 0 < h2) (hp3 : 0 < w3 ∧ 0 < h3)
    (c1 c3 : List ℚ) (k1 k3 : Bool) (msg : List Char)
    (ha1 : analyzeOutcome e1.fetch = Except.ok (c1, k1))
    (ha2 : analyzeOutcome e2.fetch = Except.error msg)
    (ha3 : analyzeOutcome e3.fetch = Except.ok (c3, k3)) :
    ∃ g1 g2 g3,
      (processImagesWithBackend [e1, e2, e3] [i1, i2, i3] existing).get? 0 = some g1 ∧
      (processImagesWithBackend [e1, e2, e3] [i1, i2, i3] existing).get? 1 = some g2 ∧
      (processImagesWithBackend [e1, e2, e3] [i1, i2, i3] existing).get? 2 = some g3 ∧
      g1.status = ImageStatus.done ∧ g2.status = ImageStatus.error ∧
      g3.status = ImageStatus.done ∧
      (∃ v1, g1.vector = some v1 ∧ v1.length = 38) ∧
      (∃ v3, g3.vector = some v3 ∧ v3.length = 38) ∧
      g2.errorMsg = some msg ∧
      completedAfter 3 3 = 3 := by
  have hproc : processImagesWithBackend [e1, e2, e3] [i1, i2, i3] existing =
      uniquifyAll [processOne e1 i1, processOne e2 i2, processOne e3 i3]
        (existing.map (fun f => lowerL f.filename)) := by
    unfold processImagesWithBackend
    simp [List.zip]
  obtain ⟨hs1, hv1⟩ := processOne_done e1 i1 w1 h1 c1 k1 hw1 hh1 hp1.1 hp1.2 ha1
  obtain ⟨hs2, he2⟩ := processOne_error e2 i2 w2 h2 msg hw2 hh2 hp2.1 hp2.2 ha2
  obtain ⟨hs3, hv3⟩ := processOne_done e3 i3 w3 h3 c3 k3 hw3 hh3 hp3.1 hp3.2 ha3
  obtain ⟨g1, hg1, hgs1, hgv1, -⟩ :=
    uniquifyAll_fields [processOne e1 i1, processOne e2 i2, processOne e3 i3]
      (existing.map (fun f => lowerL f.filename)) 0 (processOne e1 i1) rfl
  obtain ⟨g2, hg2, hgs2, -, hge2⟩ :=
    uniquifyAll_fields [processOne e1 i1, processOne e2 i2, processOne e3 i3]
      (existing.map (fun f => lowerL f.filename)) 1 (processOne e2 i2) rfl
  obtain ⟨g3, hg3, hgs3, hgv3, -⟩ :=
    uniquifyAll_fields [processOne e1 i1, processOne e2 i2, processOne e3 i3]
      (existing.map (fun f => lowerL f.filename)) 2 (processOne e3 i3) rfl
  refine ⟨g1, g2, g3, ?_, ?_, ?_, ?_, ?_, ?_, ?_, ?_, ?_, ?_⟩
  · rw [hproc]; exact hg1
  · rw [hproc]; exact hg2
  · rw [hproc]; exact hg3
  · rw [hgs1, hs1]
  · rw [hgs2, hs2]
  · rw [hgs3, hs3]
  · exact ⟨c1, by rw [hgv1, hv1], analyzeOutcome_ok_length _ _ _ ha1⟩
  · exact ⟨c3, by rw [hgv3, hv3], analyzeOutcome_ok_length _ _ _ ha3⟩
  · rw [hge2, he2]
  · decide

/-- Witness for C5 at a concrete batch: records of dimensions 4×5, #2's
fetch throwing `"boom"`, #1 and #3 answering 38 zero coordinates. -/
theorem processBatch_isolates_failure_witness :
    ∃ g1 g2 g3,
      (processImagesWithBackend
        [⟨none, none, FetchOutcome.ok (List.replicate 38 (some 0)) (JsonCheck.bool false)⟩,
         ⟨none, none, FetchOutcome.throw "boom".data⟩,
         ⟨none, none, FetchOutcome.ok (List.replicate 38 (some 0)) (JsonCheck.bool true)⟩]
        [{ mkNewRecord ⟨"a.png".data, "image/png".data, 1, 0⟩ with
            width := some 4, height := some 5 },
         { mkNewRecord ⟨"b.png".data, "image/png".data, 2, 0⟩ with
            width := some 4, height := some 5 },
         { mkNewRecord ⟨"c.png".data, "image/png".data, 3, 0⟩ with
            width := some 4, height := some 5 }] []).get? 0 = some g1 ∧
      (processImagesWithBackend
        [⟨none, none, FetchOutcome.ok (List.replicate 38 (some 0)) (JsonCheck.bool false)⟩,
         ⟨none, none, FetchOutcome.throw "boom".data⟩,
         ⟨none, none, FetchOutcome.ok (List.replicate 38 (some 0)) (JsonCheck.bool true)⟩]
        [{ mkNewRecord ⟨"a.png".data, "image/png".data, 1, 0⟩ with
            width := some 4, height := some 5 },
         { mkNewRecord ⟨"b.png".data, "image/png".data, 2, 0⟩ with
            width := some 4, height := some 5 },
         { mkNewRecord ⟨"c.png".data, "image/png".data, 3, 0⟩ with
            width := some 4, height := some 5 }] []).get? 1 = some g2 ∧
      (processImagesWithBackend
        [⟨none, none, FetchOutcome.ok (List.replicate 38 (some 0)) (JsonCheck.bool false)⟩,
         ⟨none, none, FetchOutcome.throw "boom".data⟩,
         ⟨none, none, FetchOutcome.ok (List.replicate 38 (some 0)) (JsonCheck.bool true)⟩]
        [{ mkNewRecord ⟨"a.png".data, "image/png".data, 1, 0⟩ with
            width := some 4, height := some 5 },
         { mkNewRecord ⟨"b.png".data, "image/png".data, 2, 0⟩ with
            width := some 4, height := some 5 },
         { mkNewRecord ⟨"c.png".data, "image/png".data, 3, 0⟩ with
            width := some 4, height := some 5 }] []).get? 2 = some g3 ∧
      g1.status = ImageStatus.done ∧ g2.status = ImageStatus.error ∧
      g3.status = ImageStatus.done ∧
      (∃ v1, g1.vector = some v1 ∧ v1.length = 38) ∧
      (∃ v3, g3.vector = some v3 ∧ v3.length = 38) ∧
      g2.errorMsg = some "boom".data ∧
      completedAfter 3 3 = 3 :=
  processBatch_isolates_failure _ _ _ _ _ _ [] 4 5 4 5 4 5
    rfl rfl rfl rfl rfl rfl ⟨by norm_num, by norm_num⟩
    ⟨by norm_num, by norm_num⟩ ⟨by norm_num, by norm_num⟩
    (List.replicate 38 0) (List.replicate 38 0) false true "boom".data
    rfl rfl rfl

/-! ## CSV export (C7) -/

/-- Counterexample to C7 as stated: on the empty collection the CSV text is
exactly the header line, and it is not the claimed interleaved
`file,x1,y1,x2,y2,...` row — the code emits all x columns and then all y
columns. -/
theorem buildCsv_header_not_interleaved :
    buildCsv [] ≠ csvLine claimedCsvHeaderFields := by decide

/-- C7, amended: the CSV export emits a header row reading
`file,x1,...,x19,y1,...,y19` (the 19 x columns, then the 19 y columns, in
point order), followed by one data row per record in collection order, and
a missing coordinate renders as an empty field. -/
theorem buildCsv_spec (images : List ImageFile) :
    buildCsv images =
      joinWith '\n' (csvLine csvHeaderFields ::
        images.map (fun img => csvLine (csvRowFields img))) ∧
      csvHeaderFields.get? 0 = some "file".data ∧
      (∀ j, j < 19 →
        csvHeaderFields.get? (1 + j) = some ('x' :: natToChars (j + 1)) ∧
        csvHeaderFields.get? (20 + j) = some ('y' :: natToChars (j + 1))) ∧
      (∀ img : ImageFile, (csvRowFields img).get? 0 = some img.filename ∧
        (∀ j, j < 19 →
          (csvRowFields img).get? (1 + j) =
            some (csvValueOf (img.vector.getD []) (2 * j)) ∧
          (csvRowFields img).get? (20 + j) =
            some (csvValueOf (img.vector.getD []) (2 * j + 1)))) ∧
      (∀ (v : List ℚ) (i : Nat), v.get? i = none → csvValueOf v i = []) := by
  refine ⟨rfl, by decide, by decide, ?_, ?_⟩
  · intro img
    constructor
    · rfl
    · intro j hj
      unfold csvRowFields
      constructor
      · have h1 : 1 + j = j + 1 := by omega
        rw [h1, List.get?_cons_succ, List.get?_append (by simpa using hj)]
        simp [List.get?_map, List.get?_range, hj]
      · have h2 : 20 + j = (19 + j) + 1 := by omega
        rw [h2, List.get?_cons_succ, List.get?_append_right (by simp)]
        simp [List.get?_map, List.get?_range, hj]
  · intro v i h
    unfold csvValueOf
    rw [h]

/-- Witness for the amended C7 at the empty collection. -/
theorem buildCsv_spec_witness :
    buildCsv [] =
      joinWith '\n' (csvLine csvHeaderFields ::
        ([] : List ImageFile).map (fun img => csvLine (csvRowFields img))) :=
  (buildCsv_spec []).1

/-! ## PNG tEXt injection degrades gracefully (C8) -/

/-- C8: `addPngTextChunk` returns its input byte-identical, for every
keyword and text, when the input is shorter than 8 bytes, when its first 8
bytes are not exactly the PNG signature, and when the chunk walk locates no
`IEND` chunk. -/
theorem addPngTextChunk_guard (png keyword text : List Nat) :
    (png.length < 8 → addPngTextChunk png keyword text = png) ∧
      (png.take 8 ≠ pngSignature → addPngTextChunk png keyword text = png) ∧
      (findIEND png 8 png.length = none → addPngTextChunk png keyword text = png) := by
  refine ⟨?_, ?_, ?_⟩
  · intro h
    unfold addPngTextChunk
    rw [if_pos h]
  · intro h
    unfold addPngTextChunk
    by_cases h8 : png.length < 8
    · rw [if_pos h8]
    · rw [if_neg h8, if_pos h]
  · intro h
    unfold addPngTextChunk
    by_cases h8 : png.length < 8
    · rw [if_pos h8]
    · rw [if_neg h8]
      by_cases hsig : png.take 8 ≠ pngSignature
      · rw [if_pos hsig]
      · rw [if_neg hsig, h]

/-- Witness for C8: a 3-byte buffer, a signatureless 8-byte buffer, and a
signature-only buffer (whose walk finds no `IEND`) all pass through
unchanged. -/
theorem addPngTextChunk_guard_witness :
    addPngTextChunk [1, 2, 3] [65] [66] = [1, 2, 3] ∧
      addPngTextChunk [0, 0, 0, 0, 0, 0, 0, 0] [65] [66] =
        [0, 0, 0, 0, 0, 0, 0, 0] ∧
      addPngTextChunk [137, 80, 78, 71, 13, 10, 26, 10] [65] [66] =
        [137, 80, 78, 71, 13, 10, 26, 10] :=
  ⟨(addPngTextChunk_guard [1, 2, 3] [65] [66]).1 (by decide),
    (addPngTextChunk_guard _ [65] [66]).2.1 (by decide),
    (addPngTextChunk_guard _ [65] [66]).2.2 (by decide)⟩

/-! ## ZIP structure (C6): byte-level reading lemmas -/

theorem leBytes_length : ∀ k v, (leBytes k v).length = k := by
  intro k
  induction k with
  | zero => intro v; rfl
  | succ k ih => intro v; simp [leBytes, ih]

theorem byteAt_append_right (pre rest : List Nat) (k : Nat) :
    byteAt (pre ++ rest) (pre.length + k) = byteAt rest k := by
  unfold byteAt
  rw [List.getD_append_right pre rest 0 _ (Nat.le_add_right _ _),
    Nat.add_sub_cancel_left]

theorem readLE_append (pre rest : List Nat) :
    ∀ (n k : Nat), readLE (pre ++ rest) (pre.length + k) n = readLE rest k n := by
  intro n
  induction n with
  | zero => intro k; rfl
  | succ n ih =>
    intro k
    rw [readLE, readLE, byteAt_append_right]
    have h1 : pre.length + k + 1 = pre.length + (k + 1) := by omega
    rw [h1, ih]

theorem drop_append_right (pre rest : List Nat) (k : Nat) :
    (pre ++ rest).drop (pre.length + k) = rest.drop k := by
  rw [← List.drop_drop, List.drop_left]

theorem crcStep_lt (c : Nat) (h : c < 2 ^ 32) : crcStep c < 2 ^ 32 := by
  unfold crcStep
  split
  · exact Nat.xor_lt_two_pow (by norm_num) (by omega)
  · omega

theorem crcStep_iter_lt : ∀ (j c : Nat), c < 2 ^ 32 → crcStep^[j] c < 2 ^ 32 := by
  intro j
  induction j with
  | zero => intro c hc; simpa using hc
  | succ j ih =>
    intro c hc
    rw [Function.iterate_succ_apply]
    exact ih _ (crcStep_lt c hc)

theorem crcTableEntry_lt (n : Nat) (h : n < 2 ^ 32) : crcTableEntry n < 2 ^ 32 :=
  crcStep_iter_lt 8 n h

theorem crc32_lt (data : List Nat) : crc32 data < 2 ^ 32 := by
  unfold crc32
  have hfold : ∀ (l : List Nat) (crc : Nat), crc < 2 ^ 32 →
      l.foldl (fun crc b =>
        Nat.xor (crc / 256) (crcTableEntry (Nat.xor crc b % 256))) crc < 2 ^ 32 := by
    intro l
    induction l with
    | nil => intro crc hc; simpa using hc
    | cons b bs ih =>
      intro crc hc
      apply ih
      apply Nat.xor_lt_two_pow (by omega)
      exact crcTableEntry_lt _ (by
        have := Nat.mod_lt (Nat.xor crc b) (show 0 < 256 by norm_num)
        omega)
  exact Nat.xor_lt_two_pow (hfold data 0xffffffff (by norm_num)) (by norm_num)

theorem readLE_piece (p X : List Nat) (off k n : Nat)
    (hoff : off = p.length + k) :
    readLE (p ++ X) off n = readLE X k n := by
  subst hoff
  exact readLE_append p X n k

theorem drop_piece (p X : List Nat) (off k : Nat) (hoff : off = p.length + k) :
    (p ++ X).drop off = X.drop k := by
  subst hoff
  exact drop_append_right p X k

theorem readLE_leBytes (k : Nat) : ∀ (v : Nat) (rest : List Nat),
    readLE (leBytes k v ++ rest) 0 k = v % 256 ^ k := by
  induction k with
  | zero => intro v rest; simp [readLE, leBytes, Nat.mod_one]
  | succ k ih =>
    intro v rest
    rw [leBytes]
    rw [show ((v % 256 :: leBytes k (v / 256)) ++ rest) =
      [v % 256] ++ (leBytes k (v / 256) ++ rest) from by simp]
    rw [readLE]
    rw [show (0 : Nat) + 1 = [v % 256].length + 0 from by simp]
    rw [readLE_append]
    rw [ih]
    have hb : byteAt ([v % 256] ++ (leBytes k (v / 256) ++ rest)) 0 = v % 256 := rfl
    rw [hb]
    rw [show (256 : Nat) ^ (k + 1) = 256 * 256 ^ k from by ring]
    rw [Nat.mod_mul]
    omega

theorem centralHeader_length (dos : Nat → Nat × Nat) (e : ZipEntry) (off2 : Nat) :
    (centralHeader dos e off2).length = 46 + (normName e.name).length := by
  simp [centralHeader, le16, le32, leBytes_length, List.length_append]
  omega

theorem localHeader_length (dos : Nat → Nat × Nat) (e : ZipEntry) :
    (localHeader dos e).length = 30 + (normName e.name).length := by
  simp [localHeader, le16, le32, leBytes_length, List.length_append]
  omega

theorem eocdRecord_length (count size off : Nat) :
    (eocdRecord count size off).length = 22 := by
  simp [eocdRecord, le16, le32, leBytes_length, List.length_append]

theorem central_read_sig (dos : Nat → Nat × Nat) (e : ZipEntry) (off2 : Nat)
    (rest : List Nat) :
    readLE (centralHeader dos e off2 ++ rest) 0 4 = 0x02014b50 := by
  simp only [centralHeader, List.append_assoc]
  rw [le32, readLE_leBytes]
  norm_num

theorem central_read_method (dos : Nat → Nat × Nat) (e : ZipEntry) (off2 : Nat)
    (rest : List Nat) :
    readLE (centralHeader dos e off2 ++ rest) 10 2 = 0 := by
  simp only [centralHeader, List.append_assoc]
  rw [readLE_piece _ _ 10 6 2 (by simp [le16, le32, leBytes_length])]
  rw [readLE_piece _ _ 6 4 2 (by simp [le16, le32, leBytes_length])]
  rw [readLE_piece _ _ 4 2 2 (by simp [le16, le32, leBytes_length])]
  rw [readLE_piece _ _ 2 0 2 (by simp [le16, le32, leBytes_length])]
  rw [le16, readLE_leBytes]
  norm_num

theorem central_read_crc (dos : Nat → Nat × Nat) (e : ZipEntry) (off2 : Nat)
    (rest : List Nat) :
    readLE (centralHeader dos e off2 ++ rest) 16 4 = crc32 e.data := by
  simp only [centralHeader, List.append_assoc]
  rw [readLE_piece _ _ 16 12 4 (by simp [le16, le32, leBytes_length])]
  rw [readLE_piece _ _ 12 10 4 (by simp [le16, le32, leBytes_length])]
  rw [readLE_piece _ _ 10 8 4 (by simp [le16, le32, leBytes_length])]
  rw [readLE_piece _ _ 8 6 4 (by simp [le16, le32, leBytes_length])]
  rw [readLE_piece _ _ 6 4 4 (by simp [le16, le32, leBytes_length])]
  rw [readLE_piece _ _ 4 2 4 (by simp [le16, le32, leBytes_length])]
  rw [readLE_piece _ _ 2 0 4 (by simp [le16, le32, leBytes_length])]
  rw [le32, readLE_leBytes]
  rw [show (256 : Nat) ^ 4 = 2 ^ 32 from by norm_num,
    Nat.mod_eq_of_lt (crc32_lt e.data)]

theorem central_read_comp (dos : Nat → Nat × Nat) (e : ZipEntry) (off2 : Nat)
    (rest : List Nat) :
    readLE (centralHeader dos e off2 ++ rest) 20 4 = e.data.length % 2 ^ 32 := by
  simp only [centralHeader, List.append_assoc]
  rw [readLE_piece _ _ 20 16 4 (by simp [le16, le32, leBytes_length])]
  rw [readLE_piece _ _ 16 14 4 (by simp [le16, le32, leBytes_length])]
  rw [readLE_piece _ _ 14 12 4 (by simp [le16, le32, leBytes_length])]
  rw [readLE_piece _ _ 12 10 4 (by simp [le16, le32, leBytes_length])]
  rw [readLE_piece _ _ 10 8 4 (by simp [le16, le32, leBytes_length])]
  rw [readLE_piece _ _ 8 6 4 (by simp [le16, le32, leBytes_length])]
  rw [readLE_piece _ _ 6 4 4 (by simp [le16, le32, leBytes_length])]
  rw [readLE_piece _ _ 4 0 4 (by simp [le16, le32, leBytes_length])]
  rw [le32, readLE_leBytes]
  norm_num

theorem central_read_uncomp (dos : Nat → Nat × Nat) (e : ZipEntry) (off2 : Nat)
    (rest : List Nat) :
    readLE (centralHeader dos e off2 ++ rest) 24 4 = e.data.length % 2 ^ 32 := by
  simp only [centralHeader, List.append_assoc]
  rw [readLE_piece _ _ 24 20 4 (by simp [le16, le32, leBytes_length])]
  rw [readLE_piece _ _ 20 18 4 (by simp [le16, le32, leBytes_length])]
  rw [readLE_piece _ _ 18 16 4 (by simp [le16, le32, leBytes_length])]
  rw [readLE_piece _ _ 16 14 4 (by simp [le16, le32, leBytes_length])]
  rw [readLE_piece _ _ 14 12 4 (by simp [le16, le32, leBytes_length])]
  rw [readLE_piece _ _ 12 10 4 (by simp [le16, le32, leBytes_length])]
  rw [readLE_piece _ _ 10 8 4 (by simp [le16, le32, leBytes_length])]
  rw [readLE_piece _ _ 8 4 4 (by simp [le16, le32, leBytes_length])]
  rw [readLE_piece _ _ 4 0 4 (by simp [le16, le32, leBytes_length])]
  rw [le32, readLE_leBytes]
  norm_num

theorem central_read_nameLen (dos : Nat → Nat × Nat) (e : ZipEntry) (off2 : Nat)
    (rest : List Nat) :
    readLE (centralHeader dos e off2 ++ rest) 28 2 = (normName e.name).length % 2 ^ 16 := by
  simp only [centralHeader, List.append_assoc]
  rw [readLE_piece _ _ 28 24 2 (by simp [le16, le32, leBytes_length])]
  rw [readLE_piece _ _ 24 22 2 (by simp [le16, le32, leBytes_length])]
  rw [readLE_piece _ _ 22 20 2 (by simp [le16, le32, leBytes_length])]
  rw [readLE_piece _ _ 20 18 2 (by simp [le16, le32, leBytes_length])]
  rw [readLE_piece _ _ 18 16 2 (by simp [le16, le32, leBytes_length])]
  rw [readLE_piece _ _ 16 14 2 (by simp [le16, le32, leBytes_length])]
  rw [readLE_piece _ _ 14 12 2 (by simp [le16, le32, leBytes_length])]
  rw [readLE_piece _ _ 12 8 2 (by simp [le16, le32, leBytes_length])]
  rw [readLE_piece _ _ 8 4 2 (by simp [le16, le32, leBytes_length])]
  rw [readLE_piece _ _ 4 0 2 (by simp [le16, le32, leBytes_length])]
  rw [le16, readLE_leBytes]
  norm_num

theorem central_read_extraLen (dos : Nat → Nat × Nat) (e : ZipEntry) (off2 : Nat)
    (rest : List Nat) :
    readLE (centralHeader dos e off2 ++ rest) 30 2 = 0 := by
  simp only [centralHeader, List.append_assoc]
  rw [readLE_piece _ _ 30 26 2 (by simp [le16, le32, leBytes_length])]
  rw [readLE_piece _ _ 26 24 2 (by simp [le16, le32, leBytes_length])]
  rw [readLE_piece _ _ 24 22 2 (by simp [le16, le32, leBytes_length])]
  rw [readLE_piece _ _ 22 20 2 (by simp [le16, le32, leBytes_length])]
  rw [readLE_piece _ _ 20 18 2 (by simp [le16, le32, leBytes_length])]
  rw [readLE_piece _ _ 18 16 2 (by simp [le16, le32, leBytes_length])]
  rw [readLE_piece _ _ 16 14 2 (by simp [le16, le32, leBytes_length])]
  rw [readLE_piece _ _ 14 10 2 (by simp [le16, le32, leBytes_length])]
  rw [readLE_piece _ _ 10 6 2 (by simp [le16, le32, leBytes_length])]
  rw [readLE_piece _ _ 6 2 2 (by simp [le16, le32, leBytes_length])]
  rw [readLE_piece _ _ 2 0 2 (by simp [le16, le32, leBytes_length])]
  rw [le16, readLE_leBytes]
  norm_num

theorem central_read_commentLen (dos : Nat → Nat × Nat) (e : ZipEntry) (off2 : Nat)
    (rest : List Nat) :
    readLE (centralHeader dos e off2 ++ rest) 32 2 = 0 := by
  simp only [centralHeader, List.append_assoc]
  rw [readLE_piece _ _ 32 28 2 (by simp [le16, le32, leBytes_length])]
  rw [readLE_piece _ _ 28 26 2 (by simp [le16, le32, leBytes_length])]
  rw [readLE_piece _ _ 26 24 2 (by simp [le16, le32, leBytes_length])]
  rw [readLE_piece _ _ 24 22 2 (by simp [le16, le32, leBytes_length])]
  rw [readLE_piece _ _ 22 20 2 (by simp [le16, le32, leBytes_length])]
  rw [readLE_piece _ _ 20 18 2 (by simp [le16, le32, leBytes_length])]
  rw [readLE_piece _ _ 18 16 2 (by simp [le16, le32, leBytes_length])]
  rw [readLE_piece _ _ 16 12 2 (by simp [le16, le32, leBytes_length])]
  rw [readLE_piece _ _ 12 8 2 (by simp [le16, le32, leBytes_length])]
  rw [readLE_piece _ _ 8 4 2 (by simp [le16, le32, leBytes_length])]
  rw [readLE_piece _ _ 4 2 2 (by simp [le16, le32, leBytes_length])]
  rw [readLE_piece _ _ 2 0 2 (by simp [le16, le32, leBytes_length])]
  rw [le16, readLE_leBytes]
  norm_num

theorem central_read_localOff (dos : Nat → Nat × Nat) (e : ZipEntry) (off2 : Nat)
    (rest : List Nat) :
    readLE (centralHeader dos e off2 ++ rest) 42 4 = off2 % 2 ^ 32 := by
  simp only [centralHeader, List.append_assoc]
  rw [readLE_piece _ _ 42 38 4 (by simp [le16, le32, leBytes_length])]
  rw [readLE_piece _ _ 38 36 4 (by simp [le16, le32, leBytes_length])]
  rw [readLE_piece _ _ 36 34 4 (by simp [le16, le32, leBytes_length])]
  rw [readLE_piece _ _ 34 32 4 (by simp [le16, le32, leBytes_length])]
  rw [readLE_piece _ _ 32 30 4 (by simp [le16, le32, leBytes_length])]
  rw [readLE_piece _ _ 30 28 4 (by simp [le16, le32, leBytes_length])]
  rw [readLE_piece _ _ 28 26 4 (by simp [le16, le32, leBytes_length])]
  rw [readLE_piece _ _ 26 22 4 (by simp [le16, le32, leBytes_length])]
  rw [readLE_piece _ _ 22 18 4 (by simp [le16, le32, leBytes_length])]
  rw [readLE_piece _ _ 18 14 4 (by simp [le16, le32, leBytes_length])]
  rw [readLE_piece _ _ 14 12 4 (by simp [le16, le32, leBytes_length])]
  rw [readLE_piece _ _ 12 10 4 (by simp [le16, le32, leBytes_length])]
  rw [readLE_piece _ _ 10 8 4 (by simp [le16, le32, leBytes_length])]
  rw [readLE_piece _ _ 8 6 4 (by simp [le16, le32, leBytes_length])]
  rw [readLE_piece _ _ 6 4 4 (by simp [le16, le32, leBytes_length])]
  rw [readLE_piece _ _ 4 0 4 (by simp [le16, le32, leBytes_length])]
  rw [le32, readLE_leBytes]
  norm_num

theorem local_read_sig (dos : Nat → Nat × Nat) (e : ZipEntry)
    (rest : List Nat) :
    readLE (localHeader dos e ++ rest) 0 4 = 0x04034b50 := by
  simp only [localHeader, List.append_assoc]
  rw [le32, readLE_leBytes]
  norm_num

theorem local_read_method (dos : Nat → Nat × Nat) (e : ZipEntry)
    (rest : List Nat) :
    readLE (localHeader dos e ++ rest) 8 2 = 0 := by
  simp only [localHeader, List.append_assoc]
  rw [readLE_piece _ _ 8 4 2 (by simp [le16, le32, leBytes_length])]
  rw [readLE_piece _ _ 4 2 2 (by simp [le16, le32, leBytes_length])]
  rw [readLE_piece _ _ 2 0 2 (by simp [le16, le32, leBytes_length])]
  rw [le16, readLE_leBytes]
  norm_num

theorem local_read_crc (dos : Nat → Nat × Nat) (e : ZipEntry)
    (rest : List Nat) :
    readLE (localHeader dos e ++ rest) 14 4 = crc32 e.data := by
  simp only [localHeader, List.append_assoc]
  rw [readLE_piece _ _ 14 10 4 (by simp [le16, le32, leBytes_length])]
  rw [readLE_piece _ _ 10 8 4 (by simp [le16, le32, leBytes_length])]
  rw [readLE_piece _ _ 8 6 4 (by simp [le16, le32, leBytes_length])]
  rw [readLE_piece _ _ 6 4 4 (by simp [le16, le32, leBytes_length])]
  rw [readLE_piece _ _ 4 2 4 (by simp [le16, le32, leBytes_length])]
  rw [readLE_piece _ _ 2 0 4 (by simp [le16, le32, leBytes_length])]
  rw [le32, readLE_leBytes]
  rw [show (256 : Nat) ^ 4 = 2 ^ 32 from by norm_num,
    Nat.mod_eq_of_lt (crc32_lt e.data)]

theorem local_read_comp (dos : Nat → Nat × Nat) (e : ZipEntry)
    (rest : List Nat) :
    readLE (localHeader dos e ++ rest) 18 4 = e.data.length % 2 ^ 32 := by
  simp only [localHeader, List.append_assoc]
  rw [readLE_piece _ _ 18 14 4 (by simp [le16, le32, leBytes_length])]
  rw [readLE_piece _ _ 14 12 4 (by simp [le16, le32, leBytes_length])]
  rw [readLE_piece _ _ 12 10 4 (by simp [le16, le32, leBytes_length])]
  rw [readLE_piece _ _ 10 8 4 (by simp [le16, le32, leBytes_length])]
  rw [readLE_piece _ _ 8 6 4 (by simp [le16, le32, leBytes_length])]
  rw [readLE_piece _ _ 6 4 4 (by simp [le16, le32, leBytes_length])]
  rw [readLE_piece _ _ 4 0 4 (by simp [le16, le32, leBytes_length])]
  rw [le32, readLE_leBytes]
  norm_num

theorem local_read_uncomp (dos : Nat → Nat × Nat) (e : ZipEntry)
    (rest : List Nat) :
    readLE (localHeader dos e ++ rest) 22 4 = e.data.length % 2 ^ 32 := by
  simp only [localHeader, List.append_assoc]
  rw [readLE_piece _ _ 22 18 4 (by simp [le16, le32, leBytes_length])]
  rw [readLE_piece _ _ 18 16 4 (by simp [le16, le32, leBytes_length])]
  rw [readLE_piece _ _ 16 14 4 (by simp [le16, le32, leBytes_length])]
  rw [readLE_piece _ _ 14 12 4 (by simp [le16, le32, leBytes_length])]
  rw [readLE_piece _ _ 12 10 4 (by simp [le16, le32, leBytes_length])]
  rw [readLE_piece _ _ 10 8 4 (by simp [le16, le32, leBytes_length])]
  rw [readLE_piece _ _ 8 4 4 (by simp [le16, le32, leBytes_length])]
  rw [readLE_piece _ _ 4 0 4 (by simp [le16, le32, leBytes_length])]
  rw [le32, readLE_leBytes]
  norm_num

theorem local_read_nameLen (dos : Nat → Nat × Nat) (e : ZipEntry)
    (rest : List Nat) :
    readLE (localHeader dos e ++ rest) 26 2 = (normName e.name).length % 2 ^ 16 := by
  simp only [localHeader, List.append_assoc]
  rw [readLE_piece _ _ 26 22 2 (by simp [le16, le32, leBytes_length])]
  rw [readLE_piece _ _ 22 20 2 (by simp [le16, le32, leBytes_length])]
  rw [readLE_piece _ _ 20 18 2 (by simp [le16, le32, leBytes_length])]
  rw [readLE_piece _ _ 18 16 2 (by simp [le16, le32, leBytes_length])]
  rw [readLE_piece _ _ 16 14 2 (by simp [le16, le32, leBytes_length])]
  rw [readLE_piece _ _ 14 12 2 (by simp [le16, le32, leBytes_length])]
  rw [readLE_piece _ _ 12 8 2 (by simp [le16, le32, leBytes_length])]
  rw [readLE_piece _ _ 8 4 2 (by simp [le16, le32, leBytes_length])]
  rw [readLE_piece _ _ 4 0 2 (by simp [le16, le32, leBytes_length])]
  rw [le16, readLE_leBytes]
  norm_num

theorem eocd_read_sig (count size off : Nat)
    (rest : List Nat) :
    readLE (eocdRecord count size off ++ rest) 0 4 = 0x06054b50 := by
  simp only [eocdRecord, List.append_assoc]
  rw [le32, readLE_leBytes]
  norm_num

theorem eocd_read_count (count size off : Nat)
    (rest : List Nat) :
    readLE (eocdRecord count size off ++ rest) 8 2 = count % 2 ^ 16 := by
  simp only [eocdRecord, List.append_assoc]
  rw [readLE_piece _ _ 8 4 2 (by simp [le16, le32, leBytes_length])]
  rw [readLE_piece _ _ 4 2 2 (by simp [le16, le32, leBytes_length])]
  rw [readLE_piece _ _ 2 0 2 (by simp [le16, le32, leBytes_length])]
  rw [le16, readLE_leBytes]
  norm_num

theorem eocd_read_count2 (count size off : Nat)
    (rest : List Nat) :
    readLE (eocdRecord count size off ++ rest) 10 2 = count % 2 ^ 16 := by
  simp only [eocdRecord, List.append_assoc]
  rw [readLE_piece _ _ 10 6 2 (by simp [le16, le32, leBytes_length])]
  rw [readLE_piece _ _ 6 4 2 (by simp [le16, le32, leBytes_length])]
  rw [readLE_piece _ _ 4 2 2 (by simp [le16, le32, leBytes_length])]
  rw [readLE_piece _ _ 2 0 2 (by simp [le16, le32, leBytes_length])]
  rw [le16, readLE_leBytes]
  norm_num

theorem eocd_read_size (count size off : Nat)
    (rest : List Nat) :
    readLE (eocdRecord count size off ++ rest) 12 4 = size % 2 ^ 32 := by
  simp only [eocdRecord, List.append_assoc]
  rw [readLE_piece _ _ 12 8 4 (by simp [le16, le32, leBytes_length])]
  rw [readLE_piece _ _ 8 6 4 (by simp [le16, le32, leBytes_length])]
  rw [readLE_piece _ _ 6 4 4 (by simp [le16, le32, leBytes_length])]
  rw [readLE_piece _ _ 4 2 4 (by simp [le16, le32, leBytes_length])]
  rw [readLE_piece _ _ 2 0 4 (by simp [le16, le32, leBytes_length])]
  rw [le32, readLE_leBytes]
  norm_num

theorem eocd_read_off (count size off : Nat)
    (rest : List Nat) :
    readLE (eocdRecord count size off ++ rest) 16 4 = off % 2 ^ 32 := by
  simp only [eocdRecord, List.append_assoc]
  rw [readLE_piece _ _ 16 12 4 (by simp [le16, le32, leBytes_length])]
  rw [readLE_piece _ _ 12 10 4 (by simp [le16, le32, leBytes_length])]
  rw [readLE_piece _ _ 10 8 4 (by simp [le16, le32, leBytes_length])]
  rw [readLE_piece _ _ 8 6 4 (by simp [le16, le32, leBytes_length])]
  rw [readLE_piece _ _ 6 4 4 (by simp [le16, le32, leBytes_length])]
  rw [readLE_piece _ _ 4 0 4 (by simp [le16, le32, leBytes_length])]
  rw [le32, readLE_leBytes]
  norm_num

theorem eocd_read_comment (count size off : Nat)
    (rest : List Nat) :
    readLE (eocdRecord count size off ++ rest) 20 2 = 0 := by
  simp only [eocdRecord, List.append_assoc]
  rw [readLE_piece _ _ 20 16 2 (by simp [le16, le32, leBytes_length])]
  rw [readLE_piece _ _ 16 14 2 (by simp [le16, le32, leBytes_length])]
  rw [readLE_piece _ _ 14 12 2 (by simp [le16, le32, leBytes_length])]
  rw [readLE_piece _ _ 12 10 2 (by simp [le16, le32, leBytes_length])]
  rw [readLE_piece _ _ 10 8 2 (by simp [le16, le32, leBytes_length])]
  rw [readLE_piece _ _ 8 4 2 (by simp [le16, le32, leBytes_length])]
  rw [readLE_piece _ _ 4 0 2 (by simp [le16, le32, leBytes_length])]
  rw [le16, readLE_leBytes]
  norm_num

theorem central_drop_name (dos : Nat → Nat × Nat) (e : ZipEntry) (off2 : Nat)
    (rest : List Nat) :
    (centralHeader dos e off2 ++ rest).drop 46 = normName e.name ++ rest := by
  simp only [centralHeader, List.append_assoc]
  rw [drop_piece _ _ 46 42 (by simp [le16, le32, leBytes_length])]
  rw [drop_piece _ _ 42 40 (by simp [le16, le32, leBytes_length])]
  rw [drop_piece _ _ 40 38 (by simp [le16, le32, leBytes_length])]
  rw [drop_piece _ _ 38 36 (by simp [le16, le32, leBytes_length])]
  rw [drop_piece _ _ 36 34 (by simp [le16, le32, leBytes_length])]
  rw [drop_piece _ _ 34 32 (by simp [le16, le32, leBytes_length])]
  rw [drop_piece _ _ 32 30 (by simp [le16, le32, leBytes_length])]
  rw [drop_piece _ _ 30 26 (by simp [le16, le32, leBytes_length])]
  rw [drop_piece _ _ 26 22 (by simp [le16, le32, leBytes_length])]
  rw [drop_piece _ _ 22 18 (by simp [le16, le32, leBytes_length])]
  rw [drop_piece _ _ 18 16 (by simp [le16, le32, leBytes_length])]
  rw [drop_piece _ _ 16 14 (by simp [le16, le32, leBytes_length])]
  rw [drop_piece _ _ 14 12 (by simp [le16, le32, leBytes_length])]
  rw [drop_piece _ _ 12 10 (by simp [le16, le32, leBytes_length])]
  rw [drop_piece _ _ 10 8 (by simp [le16, le32, leBytes_length])]
  rw [drop_piece _ _ 8 4 (by simp [le16, le32, leBytes_length])]
  rw [drop_piece _ _ 4 0 (by simp [le16, le32, leBytes_length])]
  exact List.drop_zero _

theorem local_drop_name (dos : Nat → Nat × Nat) (e : ZipEntry)
    (rest : List Nat) :
    (localHeader dos e ++ rest).drop 30 = normName e.name ++ rest := by
  simp only [localHeader, List.append_assoc]
  rw [drop_piece _ _ 30 26 (by simp [le16, le32, leBytes_length])]
  rw [drop_piece _ _ 26 24 (by simp [le16, le32, leBytes_length])]
  rw [drop_piece _ _ 24 22 (by simp [le16, le32, leBytes_length])]
  rw [drop_piece _ _ 22 20 (by simp [le16, le32, leBytes_length])]
  rw [drop_piece _ _ 20 18 (by simp [le16, le32, leBytes_length])]
  rw [drop_piece _ _ 18 16 (by simp [le16, le32, leBytes_length])]
  rw [drop_piece _ _ 16 12 (by simp [le16, le32, leBytes_length])]
  rw [drop_piece _ _ 12 8 (by simp [le16, le32, leBytes_length])]
  rw [drop_piece _ _ 8 4 (by simp [le16, le32, leBytes_length])]
  rw [drop_piece _ _ 4 2 (by simp [le16, le32, leBytes_length])]
  rw [drop_piece _ _ 2 0 (by simp [le16, le32, leBytes_length])]
  exact List.drop_zero _

theorem localSection_length (dos : Nat → Nat × Nat) :
    ∀ es : List ZipEntry,
      (localSection dos es).length = (es.map entryLocalSize).sum := by
  intro es
  induction es with
  | nil => rfl
  | cons e es ih =>
    simp only [localSection, List.map_cons, List.sum_cons, List.length_append,
      localHeader_length, ih, entryLocalSize]

theorem centralSection_length (dos : Nat → Nat × Nat) :
    ∀ (es : List ZipEntry) (off : Nat),
      (centralSection dos es off).length =
        (es.map (fun e => 46 + (normName e.name).length)).sum := by
  intro es
  induction es with
  | nil => intro off; rfl
  | cons e es ih =>
    intro off
    simp only [centralSection, List.map_cons, List.sum_cons, List.length_append,
      centralHeader_length, ih]

theorem cdExpected_length : ∀ (es : List ZipEntry) (off : Nat),
    (cdExpected es off).length = es.length := by
  intro es
  induction es with
  | nil => intro off; rfl
  | cons e es ih => intro off; simp [cdExpected, ih]

theorem cdExpected_get : ∀ (es : List ZipEntry) (off i : Nat) (e : ZipEntry),
    es.get? i = some e →
    (cdExpected es off).get? i = some
      { method := 0, crc := crc32 e.data, compSize := e.data.length,
        uncompSize := e.data.length,
        localOffset := off + ((es.take i).map entryLocalSize).sum,
        name := normName e.name } := by
  intro es
  induction es with
  | nil => intro off i e he; simp at he
  | cons f es ih =>
    intro off i e he
    cases i with
    | zero =>
      have : f = e := by simpa using he
      subst this
      simp [cdExpected]
    | succ n =>
      have he2 : es.get? n = some e := he
      rw [cdExpected, List.get?_cons_succ, ih _ n e he2]
      have : (f :: es).take (n + 1) = f :: es.take n := rfl
      rw [this]
      simp only [List.map_cons, List.sum_cons]
      congr 2
      omega

theorem localSection_embed (dos : Nat → Nat × Nat) :
    ∀ (es : List ZipEntry) (i : Nat) (e : ZipEntry), es.get? i = some e →
    ∃ A Z, localSection dos es = A ++ (localHeader dos e ++ Z) ∧
      A.length = ((es.take i).map entryLocalSize).sum := by
  intro es
  induction es with
  | nil => intro i e he; simp at he
  | cons f es ih =>
    intro i e he
    cases i with
    | zero =>
      have hfe : f = e := by simpa using he
      refine ⟨[], e.data ++ localSection dos es, ?_, rfl⟩
      rw [← hfe]
      simp [localSection]
    | succ n =>
      have he2 : es.get? n = some e := he
      obtain ⟨A, Z, hsplit, hlen⟩ := ih n e he2
      refine ⟨localHeader dos f ++ (f.data ++ A), Z, ?_, ?_⟩
      · rw [localSection, hsplit]
        simp [List.append_assoc]
      · simp only [List.length_append, localHeader_length, hlen]
        have : (f :: es).take (n + 1) = f :: es.take n := rfl
        rw [this]
        simp only [List.map_cons, List.sum_cons, entryLocalSize]
        omega

theorem parseCD_section (dos : Nat → Nat × Nat) :
    ∀ (es : List ZipEntry) (C D : List Nat) (off : Nat),
      (∀ e ∈ es, (normName e.name).length < 2 ^ 16) →
      (∀ e ∈ es, e.data.length < 2 ^ 32) →
      off + (es.map entryLocalSize).sum < 2 ^ 32 →
      parseCD (C ++ (centralSection dos es off ++ D)) C.length es.length =
        some (cdExpected es off) := by
  intro es
  induction es with
  | nil => intro C D off h1 h2 h3; rfl
  | cons e es ih =>
    intro C D off h1 h2 h3
    have hB : C ++ (centralSection dos (e :: es) off ++ D) =
        C ++ (centralHeader dos e off ++
          (centralSection dos es (off + entryLocalSize e) ++ D)) := by
      rw [centralSection]
      simp [List.append_assoc]
    rw [hB]
    have hememe : e ∈ e :: es := List.mem_cons_self e es
    have hlen16 := h1 e hememe
    have hlen32 := h2 e hememe
    have hoff32 : off < 2 ^ 32 := by
      simp only [List.map_cons, List.sum_cons] at h3
      omega
    have hsig : readLE (C ++ (centralHeader dos e off ++
        (centralSection dos es (off + entryLocalSize e) ++ D))) C.length 4 =
        0x02014b50 := by
      rw [readLE_piece C _ C.length 0 4 (by omega), central_read_sig]
    have hmethod : readLE (C ++ (centralHeader dos e off ++
        (centralSection dos es (off + entryLocalSize e) ++ D)))
        (C.length + 10) 2 = 0 := by
      rw [readLE_piece C _ _ 10 2 rfl, central_read_method]
    have hcrc : readLE (C ++ (centralHeader dos e off ++
        (centralSection dos es (off + entryLocalSize e) ++ D)))
        (C.length + 16) 4 = crc32 e.data := by
      rw [readLE_piece C _ _ 16 4 rfl, central_read_crc]
    have hcomp : readLE (C ++ (centralHeader dos e off ++
        (centralSection dos es (off + entryLocalSize e) ++ D)))
        (C.length + 20) 4 = e.data.length := by
      rw [readLE_piece C _ _ 20 4 rfl, central_read_comp, Nat.mod_eq_of_lt hlen32]
    have huncomp : readLE (C ++ (centralHeader dos e off ++
        (centralSection dos es (off + entryLocalSize e) ++ D)))
        (C.length + 24) 4 = e.data.length := by
      rw [readLE_piece C _ _ 24 4 rfl, central_read_uncomp, Nat.mod_eq_of_lt hlen32]
    have hname : readLE (C ++ (centralHeader dos e off ++
        (centralSection dos es (off + entryLocalSize e) ++ D)))
        (C.length + 28) 2 = (normName e.name).length := by
      rw [readLE_piece C _ _ 28 2 rfl, central_read_nameLen,
        Nat.mod_eq_of_lt hlen16]
    have hextra : readLE (C ++ (centralHeader dos e off ++
        (centralSection dos es (off + entryLocalSize e) ++ D)))
        (C.length + 30) 2 = 0 := by
      rw [readLE_piece C _ _ 30 2 rfl, central_read_extraLen]
    have hcomment : readLE (C ++ (centralHeader dos e off ++
        (centralSection dos es (off + entryLocalSize e) ++ D)))
        (C.length + 32) 2 = 0 := by
      rw [readLE_piece C _ _ 32 2 rfl, central_read_commentLen]
    have hlocaloff : readLE (C ++ (centralHeader dos e off ++
        (centralSection dos es (off + entryLocalSize e) ++ D)))
        (C.length + 42) 4 = off := by
      rw [readLE_piece C _ _ 42 4 rfl, central_read_localOff,
        Nat.mod_eq_of_lt hoff32]
    have hnamebytes : ((C ++ (centralHeader dos e off ++
        (centralSection dos es (off + entryLocalSize e) ++ D))).drop
        (C.length + 46)).take (normName e.name).length = normName e.name := by
      rw [drop_piece C _ _ 46 rfl, central_drop_name, List.take_left]
    have hrec : parseCD (C ++ (centralHeader dos e off ++
        (centralSection dos es (off + entryLocalSize e) ++ D)))
        (C.length + 46 + (normName e.name).length + 0 + 0) es.length =
        some (cdExpected es (off + entryLocalSize e)) := by
      have hassoc : C ++ (centralHeader dos e off ++
          (centralSection dos es (off + entryLocalSize e) ++ D)) =
          (C ++ centralHeader dos e off) ++
            (centralSection dos es (off + entryLocalSize e) ++ D) := by
        simp [List.append_assoc]
      have hclen : C.length + 46 + (normName e.name).length + 0 + 0 =
          (C ++ centralHeader dos e off).length := by
        simp [List.length_append, centralHeader_length]
        omega
      rw [hassoc, hclen]
      apply ih
      · intro x hx; exact h1 x (List.mem_cons_of_mem e hx)
      · intro x hx; exact h2 x (List.mem_cons_of_mem e hx)
      · simp only [List.map_cons, List.sum_cons] at h3
        omega
    rw [show (e :: es).length = es.length + 1 from rfl, parseCD]
    rw [if_pos hsig]
    simp only [hmethod, hcrc, hcomp, huncomp, hname, hextra, hcomment,
      hlocaloff, hnamebytes, hrec]
    rfl

theorem eocd0_sig (count size off : Nat) :
    readLE (eocdRecord count size off) 0 4 = 0x06054b50 := by
  have h := eocd_read_sig count size off []
  rwa [List.append_nil] at h

theorem eocd0_count (count size off : Nat) :
    readLE (eocdRecord count size off) 10 2 = count % 2 ^ 16 := by
  have h := eocd_read_count2 count size off []
  rwa [List.append_nil] at h

theorem eocd0_size (count size off : Nat) :
    readLE (eocdRecord count size off) 12 4 = size % 2 ^ 32 := by
  have h := eocd_read_size count size off []
  rwa [List.append_nil] at h

theorem eocd0_off (count size off : Nat) :
    readLE (eocdRecord count size off) 16 4 = off % 2 ^ 32 := by
  have h := eocd_read_off count size off []
  rwa [List.append_nil] at h

theorem eocd0_comment (count size off : Nat) :
    readLE (eocdRecord count size off) 20 2 = 0 := by
  have h := eocd_read_comment count size off []
  rwa [List.append_nil] at h

/-- C6: under the 16/32-bit field bounds of the ZIP format, the bytes
produced by `createZipBlob` form a structurally valid archive: the
end-of-central-directory record parses and locates a central directory
whose entries, in order, carry the submitted (slash-normalized) names and
the submitted data sizes as both compressed and uncompressed sizes, and
each central entry's local-header offset points at a local file header with
the local signature, method 0 (stored), the correct CRC-32 of that entry's
data, and the same sizes and name. -/
theorem createZipBlob_valid (dos : Nat → Nat × Nat) (entries : List ZipEntry)
    (hb : zipBounded dos entries) :
    ∃ count cdSize cdOff cd,
      parseEOCD (createZipBlob dos entries) = some (count, cdSize, cdOff) ∧
      count = entries.length ∧
      parseCD (createZipBlob dos entries) cdOff count = some cd ∧
      cd.length = entries.length ∧
      ∀ i, i < entries.length →
        ∃ ce e, cd.get? i = some ce ∧ entries.get? i = some e ∧
          ce.name = normName e.name ∧ ce.compSize = e.data.length ∧
          ce.uncompSize = e.data.length ∧ ce.method = 0 ∧
          ce.crc = crc32 e.data ∧
          localHeaderMatches (createZipBlob dos entries) ce.localOffset ce := by
  obtain ⟨hn16, hper, htotal⟩ := hb
  have hbytes : createZipBlob dos entries =
      localSection dos entries ++ (centralSection dos entries 0 ++
        eocdRecord entries.length (centralSection dos entries 0).length
          (localSection dos entries).length) := by
    rw [createZipBlob]
    exact List.append_assoc _ _ _
  have hlen : (createZipBlob dos entries).length =
      (localSection dos entries).length +
        ((centralSection dos entries 0).length + 22) := by
    rw [hbytes]
    simp [List.length_append, eocdRecord_length]
  have hpw32 : (2 : Nat) ^ 32 = 4294967296 := by norm_num
  have hpw16 : (2 : Nat) ^ 16 = 65536 := by norm_num
  have hL32 : (localSection dos entries).length < 2 ^ 32 := by omega
  have hC32 : (centralSection dos entries 0).length < 2 ^ 32 := by omega
  have hn16b : entries.length < 2 ^ 16 := by omega
  have h22 : ¬ (createZipBlob dos entries).length < 22 := by omega
  have hoffeq : (createZipBlob dos entries).length - 22 =
      (localSection dos entries).length + (centralSection dos entries 0).length := by
    omega
  have hesig : readLE (createZipBlob dos entries)
      ((createZipBlob dos entries).length - 22) 4 = 0x06054b50 := by
    rw [hoffeq, hbytes,
      readLE_piece _ _ _ ((centralSection dos entries 0).length + 0) 4 (by omega),
      readLE_piece _ _ _ 0 4 (by omega), eocd0_sig]
  have hecomment : readLE (createZipBlob dos entries)
      ((createZipBlob dos entries).length - 22 + 20) 2 = 0 := by
    rw [hoffeq, hbytes,
      readLE_piece _ _ _ ((centralSection dos entries 0).length + 20) 2 (by omega),
      readLE_piece _ _ _ 20 2 (by omega), eocd0_comment]
  have hecount : readLE (createZipBlob dos entries)
      ((createZipBlob dos entries).length - 22 + 10) 2 = entries.length := by
    rw [hoffeq, hbytes,
      readLE_piece _ _ _ ((centralSection dos entries 0).length + 10) 2 (by omega),
      readLE_piece _ _ _ 10 2 (by omega), eocd0_count, Nat.mod_eq_of_lt hn16b]
  have hesize : readLE (createZipBlob dos entries)
      ((createZipBlob dos entries).length - 22 + 12) 4 =
      (centralSection dos entries 0).length := by
    rw [hoffeq, hbytes,
      readLE_piece _ _ _ ((centralSection dos entries 0).length + 12) 4 (by omega),
      readLE_piece _ _ _ 12 4 (by omega), eocd0_size, Nat.mod_eq_of_lt hC32]
  have heoff : readLE (createZipBlob dos entries)
      ((createZipBlob dos entries).length - 22 + 16) 4 =
      (localSection dos entries).length := by
    rw [hoffeq, hbytes,
      readLE_piece _ _ _ ((centralSection dos entries 0).length + 16) 4 (by omega),
      readLE_piece _ _ _ 16 4 (by omega), eocd0_off, Nat.mod_eq_of_lt hL32]
  have heocd : parseEOCD (createZipBlob dos entries) =
      some (entries.length, (centralSection dos entries 0).length,
        (localSection dos entries).length) := by
    unfold parseEOCD
    rw [if_neg h22]
    simp only [hesig, hecomment, hecount, hesize, heoff, and_self, if_true]
  have hsum : ((entries.map entryLocalSize).sum : Nat) =
      (localSection dos entries).length := (localSection_length dos entries).symm
  have hcd : parseCD (createZipBlob dos entries)
      (localSection dos entries).length entries.length =
      some (cdExpected entries 0) := by
    have h := parseCD_section dos entries (localSection dos entries)
      (eocdRecord entries.length (centralSection dos entries 0).length
        (localSection dos entries).length) 0
      (fun e he => (hper e he).1) (fun e he => (hper e he).2)
      (by rw [Nat.zero_add, hsum]; exact hL32)
    rw [hbytes]
    exact h
  refine ⟨entries.length, (centralSection dos entries 0).length,
    (localSection dos entries).length, cdExpected entries 0,
    heocd, rfl, hcd, cdExpected_length entries 0, ?_⟩
  intro i hi
  have hei : entries.get? i = some (entries.get ⟨i, hi⟩) := List.get?_eq_get hi
  set e := entries.get ⟨i, hi⟩ with hedef
  have hmem : e ∈ entries := List.get_mem entries i hi
  have hce := cdExpected_get entries 0 i e hei
  obtain ⟨A, Z, hsplit, hAlen⟩ := localSection_embed dos entries i e hei
  have hbytes2 : createZipBlob dos entries =
      A ++ (localHeader dos e ++ (Z ++ (centralSection dos entries 0 ++
        eocdRecord entries.length (centralSection dos entries 0).length
          (localSection dos entries).length))) := by
    rw [hbytes, hsplit]
    simp [List.append_assoc]
  have hoffA : 0 + ((entries.take i).map entryLocalSize).sum = A.length := by
    omega
  refine ⟨_, e, hce, hei, rfl, rfl, rfl, rfl, rfl, ?_⟩
  simp only [hoffA]
  have hdata32 : e.data.length < 2 ^ 32 := by
    have := (hper e hmem).2
    omega
  have hname16 : (normName e.name).length < 2 ^ 16 := by
    have := (hper e hmem).1
    omega
  unfold localHeaderMatches
  refine ⟨?_, ?_, ?_, ?_, ?_, ?_, ?_⟩
  · rw [hbytes2, readLE_piece A _ _ 0 4 (by omega), local_read_sig]
  · rw [hbytes2, readLE_piece A _ _ 8 2 rfl, local_read_method]
  · rw [hbytes2, readLE_piece A _ _ 14 4 rfl, local_read_crc]
  · rw [hbytes2, readLE_piece A _ _ 18 4 rfl, local_read_comp,
      Nat.mod_eq_of_lt hdata32]
  · rw [hbytes2, readLE_piece A _ _ 22 4 rfl, local_read_uncomp,
      Nat.mod_eq_of_lt hdata32]
  · rw [hbytes2, readLE_piece A _ _ 26 2 rfl, local_read_nameLen,
      Nat.mod_eq_of_lt hname16]
  · rw [hbytes2, drop_piece A _ _ 30 rfl, local_drop_name, List.take_left]

set_option maxRecDepth 8000 in
/-- Witness for C6: a concrete two-entry archive (one name containing a
backslash, one empty payload) satisfies the bounds and parses back. -/
theorem createZipBlob_valid_witness :
    ∃ count cdSize cdOff cd,
      parseEOCD (createZipBlob (fun _ => (33, 44))
        [⟨[97], [1, 2, 3], 0⟩, ⟨[98, 92], [], 5⟩]) =
        some (count, cdSize, cdOff) ∧
      count = ([⟨[97], [1, 2, 3], 0⟩, ⟨[98, 92], [], 5⟩] : List ZipEntry).length ∧
      parseCD (createZipBlob (fun _ => (33, 44))
        [⟨[97], [1, 2, 3], 0⟩, ⟨[98, 92], [], 5⟩]) cdOff count = some cd ∧
      cd.length = ([⟨[97], [1, 2, 3], 0⟩, ⟨[98, 92], [], 5⟩] : List ZipEntry).length ∧
      ∀ i, i < ([⟨[97], [1, 2, 3], 0⟩, ⟨[98, 92], [], 5⟩] : List ZipEntry).length →
        ∃ ce e, cd.get? i = some ce ∧
          ([⟨[97], [1, 2, 3], 0⟩, ⟨[98, 92], [], 5⟩] : List ZipEntry).get? i =
            some e ∧
          ce.name = normName e.name ∧ ce.compSize = e.data.length ∧
          ce.uncompSize = e.data.length ∧ ce.method = 0 ∧
          ce.crc = crc32 e.data ∧
          localHeaderMatches (createZipBlob (fun _ => (33, 44))
            [⟨[97], [1, 2, 3], 0⟩, ⟨[98, 92], [], 5⟩]) ce.localOffset ce :=
  createZipBlob_valid (fun _ => (33, 44)) [⟨[97], [1, 2, 3], 0⟩, ⟨[98, 92], [], 5⟩]
    ⟨by decide, by decide, by decide⟩
